import Mathlib

/-! AudioDLL: the block-based streaming writer.

A shallow embedding of `src/AudioDLL/AudioDLL.cpp`.

* Non-negative `int`, `DWORD` and `DWORD_PTR` values are natural numbers; the
  only counter that is decremented, `waveFreeBlockCount`, is an integer.
* The pool is one heap region (`State.heap`, a list of bytes).  A block's
  `lpData` is the offset of its buffer in that region.  The `WAVEHDR` records
  themselves are kept as a list of structures (`State.waveBlocks`).
* The waveOut device is the list of block indices it still has to finish
  (`State.queue`, oldest first) and the log of what it was handed
  (`State.played`).  It finishes blocks in the order it received them and calls
  `WaveOutProc` with `WOM_DONE` once for each.
* The two busy-wait loops poll `waveFreeBlockCount`.  What the device does
  before each poll is given by `State.sched`: its head is the number of blocks
  the device finishes before the next poll.  After the last entry the device
  finishes nothing more; a loop that then keeps waiting never comes back
  (`none`).
* Undefined behaviour (an access outside the region or the block array, a
  division by zero) is `none` as well.
-/

namespace AudioDLL

/-- Default size of an audio block. -/
def BLOCK_SIZE : Nat := 8192

/-- Default number of audio blocks. -/
def BLOCK_COUNT : Nat := 20

/-- Message sent to the callback when the device is opened. -/
def WOM_OPEN : Nat := 0x3BB

/-- Message sent to the callback when the device is closed. -/
def WOM_CLOSE : Nat := 0x3BC

/-- Message sent to the callback when the device has finished a block. -/
def WOM_DONE : Nat := 0x3BD

/-- The fields of a `WAVEHDR` the program uses.  `prepared` is the bit
`dwFlags & WHDR_PREPARED`. -/
structure WAVEHDR where
  lpData : Nat
  dwBufferLength : Nat
  dwUser : Nat
  prepared : Bool
  deriving DecidableEq

/-- One block handed to `waveOutWrite`: its index in the pool, its declared
length and the bytes of its buffer at that moment. -/
structure Submission where
  index : Nat
  dwBufferLength : Nat
  data : List Nat
  deriving DecidableEq

/-- The calls that acquire or release a resource, and the fatal exit. -/
inductive Call where
  | CreateFile
  | AllocateBlocks
  | InitializeCriticalSection
  | waveOutOpen
  | DeleteCriticalSection
  | FreeBlocks
  | waveOutClose
  | CloseHandle
  | ExitProcess
  deriving DecidableEq

/-- The module level variables, the pool region, and the device. -/
structure State where
  waveBlocks : List WAVEHDR
  waveFreeBlockCount : Int
  waveCurrentBlock : Nat
  heap : List Nat
  queue : List Nat
  played : List Submission
  sched : List Nat
  calls : List Call
  deriving DecidableEq

/-- The callback: every message but `WOM_DONE` is ignored, `WOM_DONE`
increments `waveFreeBlockCount` (inside the critical section). -/
def WaveOutProc (uMsg : Nat) (st : State) : State :=
  if uMsg ≠ WOM_DONE then st
  else { st with waveFreeBlockCount := st.waveFreeBlockCount + 1 }

/-- The device finishes its oldest pending block and notifies the callback. -/
def deviceDone (st : State) : State :=
  match st.queue with
  | [] => st
  | _ :: rest => WaveOutProc WOM_DONE { st with queue := rest }

/-- The device finishes `k` blocks (fewer when fewer are pending). -/
def deviceRun : Nat → State → State
  | 0, st => st
  | k + 1, st => deviceRun k (deviceDone st)

/-- The result of `waveOutUnprepareHeader` on block `i`: refused while the
device still holds the block, otherwise the prepared bit is cleared. -/
def waveOutUnprepareHeader (st : State) (i : Nat) : State :=
  if i ∈ st.queue then st
  else { st with waveBlocks := st.waveBlocks.modify (fun b => { b with prepared := false }) i }

/-- The result of `waveOutPrepareHeader` on block `i`. -/
def waveOutPrepareHeader (st : State) (i : Nat) : State :=
  { st with waveBlocks := st.waveBlocks.modify (fun b => { b with prepared := true }) i }

/-- The result of `waveOutWrite` on block `i`: the device queues the block and
takes `dwBufferLength` bytes from `lpData`. -/
def waveOutWrite (st : State) (i : Nat) : State :=
  match st.waveBlocks[i]? with
  | none => st
  | some b =>
    { st with
      queue := st.queue ++ [i]
      played := st.played ++
        [{ index := i, dwBufferLength := b.dwBufferLength,
           data := (st.heap.drop b.lpData).take b.dwBufferLength }] }

/-- The bytes of `heap` after `memcpy(heap + dst, src, n)`. -/
def memcpy (heap : List Nat) (dst : Nat) (src : List Nat) (n : Nat) : List Nat :=
  heap.take dst ++ src.take n ++ heap.drop (dst + n)

/-- The pool as `AllocateBlocks` leaves it: the size it asks `HeapAlloc` for
and the headers it fills in. -/
structure Pool where
  dwTotalBufferSize : Nat
  blocks : List WAVEHDR
  deriving DecidableEq

/-- The `for` loop of `AllocateBlocks`: `k` headers are still to be filled and
`buffer` is the running pointer. -/
def AllocateBlocks.loop (size : Nat) : Nat → Nat → List WAVEHDR
  | 0, _ => []
  | k + 1, buffer =>
    { lpData := buffer, dwBufferLength := size, dwUser := 0, prepared := false } ::
      AllocateBlocks.loop size k (buffer + size)

/-- The pool of `AllocateBlocks(size, count)`, where `H` is `sizeof(WAVEHDR)`.
The requested size is a `DWORD`.  The region is zeroed (`HEAP_ZERO_MEMORY`), so
`dwUser` and the flags start at zero. -/
def AllocateBlocks (H size count : Nat) : Pool :=
  { dwTotalBufferSize := ((size + H) * count) % 2 ^ 32
    blocks := AllocateBlocks.loop size count (H * count) }

/-- The lines `memcpy(current->lpData + current->dwUser, data, n)` of
`WriteAudio`.  Copying outside the region or past the end of `data` is
undefined. -/
def copyToCurrent (st : State) (data : List Nat) (n : Nat) : Option State :=
  match st.waveBlocks[st.waveCurrentBlock]? with
  | none => none
  | some current =>
    if current.lpData + current.dwUser + n ≤ st.heap.length ∧ n ≤ data.length then
      some { st with heap := memcpy st.heap (current.lpData + current.dwUser) data n }
    else none

/-- Lines 168 and 169 of `WriteAudio`: copy all of the input into the current
block and advance its fill offset. -/
def topUpCurrent (st : State) (data : List Nat) (size : Nat) : Option State :=
  match copyToCurrent st data size with
  | none => none
  | some st1 =>
    some { st1 with
      waveBlocks := st1.waveBlocks.modify
        (fun b => { b with dwUser := b.dwUser + size }) st1.waveCurrentBlock }

/-- Lines 173 to 179 of `WriteAudio`: fill the current block with `remain`
bytes, set its length, prepare it and write it to the device. -/
def writeCurrent (st : State) (data : List Nat) (remain blockSize : Nat) : Option State :=
  match copyToCurrent st data remain with
  | none => none
  | some st1 =>
    let i := st1.waveCurrentBlock
    let st2 := { st1 with
      waveBlocks := st1.waveBlocks.modify (fun b => { b with dwBufferLength := blockSize }) i }
    some (waveOutWrite (waveOutPrepareHeader st2 i) i)

/-- Lines 180 to 182 of `WriteAudio`: decrement `waveFreeBlockCount` inside the
critical section. -/
def decrementFree (st : State) : State :=
  { st with waveFreeBlockCount := st.waveFreeBlockCount - 1 }

/-- Lines 173 to 182 of `WriteAudio`: fill and write the current block, then
decrement `waveFreeBlockCount`. -/
def submitCurrent (st : State) (data : List Nat) (remain blockSize : Nat) : Option State :=
  match writeCurrent st data remain blockSize with
  | none => none
  | some st1 => some (decrementFree st1)

/-- The loop `while (!waveFreeBlockCount) Sleep(10);` run against the
schedule: before each poll the device finishes the scheduled number of
blocks.  Once the schedule is used up the device finishes nothing more, and a
loop that still reads zero never exits. -/
def waitLoop : List Nat → State → Option State
  | [], st => if st.waveFreeBlockCount = 0 then none else some { st with sched := [] }
  | k :: rest, st =>
    let st1 := deviceRun k st
    if st1.waveFreeBlockCount = 0 then waitLoop rest st1
    else some { st1 with sched := rest }

/-- Lines 189 to 192 of `WriteAudio`: move to the next block of the ring and
reset its fill offset. -/
def nextBlock (st : State) (blockCount : Nat) : Option State :=
  if blockCount = 0 then none
  else
    let i := (st.waveCurrentBlock + 1) % blockCount
    match st.waveBlocks[i]? with
    | none => none
    | some _ =>
      some { st with
        waveCurrentBlock := i
        waveBlocks := st.waveBlocks.modify (fun b => { b with dwUser := 0 }) i }

/-- The `while (size > 0)` loop of `WriteAudio`.  The first argument bounds the
number of iterations. -/
def WriteAudio.loop (blockSize blockCount : Nat) : Nat → State → List Nat → Nat → Option State
  | 0, _, _, _ => none
  | fuel + 1, st, data, size =>
    if size = 0 then some st
    else
      match st.waveBlocks[st.waveCurrentBlock]? with
      | none => none
      | some current =>
        let st1 := if current.prepared then waveOutUnprepareHeader st st.waveCurrentBlock else st
        if size < blockSize - current.dwUser then topUpCurrent st1 data size
        else if blockSize < current.dwUser then none
        else
          let remain := blockSize - current.dwUser
          match submitCurrent st1 data remain blockSize with
          | none => none
          | some st2 =>
            match waitLoop st2.sched st2 with
            | none => none
            | some st3 =>
              match nextBlock st3 blockCount with
              | none => none
              | some st4 => WriteAudio.loop blockSize blockCount fuel st4 (data.drop remain) (size - remain)

/-- The function `WriteAudio(hWaveOut, data, size, blockSize, blockCount)`.
With `blockSize ≥ 1` every iteration but the first consumes at least one byte,
so `size + 2` iterations are enough. -/
def WriteAudio (st : State) (data : List Nat) (size blockSize blockCount : Nat) : Option State :=
  WriteAudio.loop blockSize blockCount (size + 2) st data size

/-- Successive calls of `WriteAudio`, one for each chunk. -/
def WriteAudioSeq (blockSize blockCount : Nat) : State → List (List Nat) → Option State
  | st, [] => some st
  | st, chunk :: rest =>
    match WriteAudio st chunk chunk.length blockSize blockCount with
    | none => none
    | some st1 => WriteAudioSeq blockSize blockCount st1 rest

/-- The state a driver sets up before streaming: lines 275 to 277 of
`PlayFrame` and 400 to 402 of `PlayWavFile`. -/
def resetPool (H size count : Nat) (st : State) : State :=
  let pool := AllocateBlocks H size count
  { st with
    waveBlocks := pool.blocks
    heap := List.replicate pool.dwTotalBufferSize 0
    waveFreeBlockCount := (count : Int)
    waveCurrentBlock := 0
    calls := st.calls ++ [Call.AllocateBlocks] }

/-- A state in which nothing is allocated, queued or played; the device will
follow `sched`. -/
def idleState (sched : List Nat) : State :=
  { waveBlocks := [], waveFreeBlockCount := 0, waveCurrentBlock := 0, heap := [],
    queue := [], played := [], sched := sched, calls := [] }


/-- A freshly reset pool: `AllocateBlocks(size, count)` on an idle device that
will follow `sched`, with `waveFreeBlockCount = count` and
`waveCurrentBlock = 0`. -/
def freshPool (H size count : Nat) (sched : List Nat) : State :=
  resetPool H size count (idleState sched)

/-- The total number of bytes in a list of chunks. -/
def totalLength (chunks : List (List Nat)) : Nat :=
  (chunks.map List.length).sum

/-! ## Observations on a state -/

/-- The fill offset of the cursor: `dwUser` of the current block. -/
def fillOffset (st : State) : Nat :=
  match st.waveBlocks[st.waveCurrentBlock]? with
  | some b => b.dwUser
  | none => 0

/-- The bytes waiting in the current block: its first `dwUser` bytes. -/
def pendingBytes (st : State) : List Nat :=
  match st.waveBlocks[st.waveCurrentBlock]? with
  | some b => (st.heap.drop b.lpData).take b.dwUser
  | none => []

/-- The bytes handed to the device so far, in submission order. -/
def submittedBytes (st : State) : List Nat :=
  (st.played.map Submission.data).flatten

/-- Every byte the writer has accepted and still accounts for: what was
submitted, then what is waiting in the current block. -/
def streamed (st : State) : List Nat :=
  submittedBytes st ++ pendingBytes st

/-- What no step of the writer or of the device changes: the buffer of every
block, the size of the region, the sum of the free count and the number of
pending blocks, and the record of resource calls. -/
structure Frame (st st' : State) : Prop where
  buffers : st'.waveBlocks.map WAVEHDR.lpData = st.waveBlocks.map WAVEHDR.lpData
  heapLength : st'.heap.length = st.heap.length
  counter : st'.waveFreeBlockCount + st'.queue.length = st.waveFreeBlockCount + st.queue.length
  calls : st'.calls = st.calls

/-- The pool has `C` blocks and the `S`-byte buffer of each lies inside the
region. -/
def PoolOK (S C : Nat) (st : State) : Prop :=
  st.waveBlocks.length = C ∧ ∀ a ∈ st.waveBlocks.map WAVEHDR.lpData, a + S ≤ st.heap.length

/-! ## The playback drivers -/

/-- What a playback call depends on besides its arguments. -/
structure Env where
  /-- The bytes of the file, or `none` when `CreateFile` fails. -/
  file : Option (List Nat)
  /-- Whether `HeapAlloc` succeeds. -/
  heapOk : Bool
  /-- Whether `waveOutOpen` returns `MMSYSERR_NOERROR`. -/
  waveOutOk : Bool
  /-- The value of `sizeof(WAVEHDR)`. -/
  H : Nat
  /-- What the device does before each poll of `waveFreeBlockCount`. -/
  sched : List Nat
  /-- The bytes found in uninitialised local variables. -/
  garbage : List Nat
  /-- How many iterations of the chunk search of `PlayFrame` are followed. -/
  scanFuel : Nat

/-- How a playback call ends. -/
inductive Outcome where
  /-- The function returns. -/
  | returned (st : State)
  /-- The process is terminated by `ExitProcess(1)`. -/
  | exited (st : State)
  /-- The call does not come back: a loop never exits, or the behaviour is
  undefined. -/
  | stuck

/-- Record a call. -/
def logCall (st : State) (c : Call) : State :=
  { st with calls := st.calls ++ [c] }

/-- An uninitialised local variable of `n` bytes. -/
def uninit (env : Env) (n : Nat) : List Nat :=
  (env.garbage ++ List.replicate n 0).take n

/-- The bytes `ReadFile` delivers from position `pos` when asked for `n`: as
many as the file still has, at most `n`.  On a disk file the call itself does
not fail. -/
def ReadFile (file : List Nat) (pos n : Nat) : List Nat :=
  (file.drop pos).take n

/-- A buffer after `ReadFile` has stored `bytes` at its start. -/
def store (buffer bytes : List Nat) : List Nat :=
  bytes ++ buffer.drop bytes.length

/-- The file position after `SetFilePointer(hFile, dist, NULL, FILE_CURRENT)`:
a move before the start of the file is refused. -/
def SetFilePointer (pos : Nat) (dist : Int) : Nat :=
  if 0 ≤ (pos : Int) + dist then ((pos : Int) + dist).toNat else pos

/-- A 32-bit unsigned value read as a `LONG`. -/
def toLONG (n : Nat) : Int :=
  if n % 2 ^ 32 < 2 ^ 31 then ((n % 2 ^ 32 : Nat) : Int) else ((n % 2 ^ 32 : Nat) : Int) - 2 ^ 32

/-- The little-endian 16-bit field at offset `off`. -/
def le16 (bs : List Nat) (off : Nat) : Nat :=
  bs.getD off 0 % 256 + 256 * (bs.getD (off + 1) 0 % 256)

/-- The little-endian 32-bit field at offset `off`. -/
def le32 (bs : List Nat) (off : Nat) : Nat :=
  le16 bs off + 65536 * le16 bs (off + 2)

/-- The 36 bytes of `waveHeader` after the header has been read. -/
def readHeader (env : Env) (file : List Nat) : List Nat :=
  store (uninit env 36) (ReadFile file 0 36)

/-- The field `wAudioFormatCode` of `struct wav_header`. -/
def wAudioFormatCode (waveHeader : List Nat) : Nat := le16 waveHeader 20

/-- The field `ulByteRate` of `struct wav_header`. -/
def ulByteRate (waveHeader : List Nat) : Nat := le32 waveHeader 28

/-- A finite `double`: the number `m * 2 ^ e`. -/
structure double where
  m : Int
  e : Int
  deriving DecidableEq

/-- Rounding to a 53-bit significand, to nearest, ties to even. -/
def round53 (d : double) : double :=
  let n := d.m.natAbs
  if n < 2 ^ 53 then d
  else
    let k := Nat.log2 n - 52
    let q := n / 2 ^ k
    let r := n % 2 ^ k
    let q1 := if 2 ^ (k - 1) < r ∨ (r = 2 ^ (k - 1) ∧ q % 2 = 1) then q + 1 else q
    { m := d.m.sign * q1, e := d.e + k }

/-- The product `r * d` of an `unsigned long` and a `double`. -/
def mulDouble (r : Nat) (d : double) : double :=
  round53 { m := (r : Int) * d.m, e := d.e }

/-- Conversion of a `double` to `int` or `long` (both 32 bits): truncation
toward zero; a value that does not fit is undefined. -/
def toInt32 (d : double) : Option Int :=
  let v := if 0 ≤ d.e then d.m * 2 ^ d.e.toNat else Int.tdiv d.m (2 ^ (-d.e).toNat)
  if -(2 ^ 31) ≤ v ∧ v < 2 ^ 31 then some v else none

/-- The loop `while (waveFreeBlockCount < blockCount) Sleep(10);` run against
the schedule, like `waitLoop`. -/
def drainLoop (blockCount : Nat) : List Nat → State → Option State
  | [], st => if st.waveFreeBlockCount < (blockCount : Int) then none else some { st with sched := [] }
  | k :: rest, st =>
    let st1 := deviceRun k st
    if st1.waveFreeBlockCount < (blockCount : Int) then drainLoop blockCount rest st1
    else some { st1 with sched := rest }

/-- The loop `for (i = 0; i < waveFreeBlockCount; i++)` that unprepares the
blocks, with `n` iterations to go from index `i`. -/
def unprepareLoop : Nat → Nat → State → Option State
  | 0, _, st => some st
  | n + 1, i, st =>
    match st.waveBlocks[i]? with
    | none => none
    | some b => unprepareLoop n (i + 1) (if b.prepared then waveOutUnprepareHeader st i else st)

/-- The result of `FreeBlocks(waveBlocks)`: the region is released. -/
def FreeBlocks (st : State) : State :=
  logCall { st with waveBlocks := [], heap := [] } Call.FreeBlocks

/-- The four calls that end both drivers: `DeleteCriticalSection`,
`FreeBlocks`, `waveOutClose`, `CloseHandle`. -/
def teardown (st : State) : State :=
  logCall (logCall (FreeBlocks (logCall st Call.DeleteCriticalSection)) Call.waveOutClose)
    Call.CloseHandle

/-- Lines 444 to 452 of `PlayWavFile` and 334 to 342 of `PlayFrame`: wait until
every block is free, then unprepare. -/
def drain (blockCount : Nat) (st : State) : Outcome :=
  match drainLoop blockCount st.sched st with
  | none => Outcome.stuck
  | some st1 =>
    match unprepareLoop st1.waveFreeBlockCount.toNat 0 st1 with
    | none => Outcome.stuck
    | some st2 => Outcome.returned st2

/-- Lines 275 to 298 of `PlayFrame` and 400 to 423 of `PlayWavFile`: allocate
the pool, reset the counters, open the device. -/
def openPool (env : Env) (size count : Nat) (st : State) : Outcome :=
  if env.heapOk = false then
    Outcome.exited (logCall (logCall st Call.AllocateBlocks) Call.ExitProcess)
  else
    let st1 := logCall (resetPool env.H size count st) Call.InitializeCriticalSection
    if env.waveOutOk = false then
      Outcome.exited (logCall (logCall st1 Call.waveOutOpen) Call.ExitProcess)
    else Outcome.returned (logCall st1 Call.waveOutOpen)

/-- The playback loop of `PlayWavFile`. -/
def PlayWavFile.readLoop (file : List Nat) : Nat → Nat → List Nat → State → Option State
  | 0, _, _, _ => none
  | fuel + 1, pos, buffer, st =>
    let bytes := ReadFile file pos 1024
    let dwReadBytes := bytes.length
    let buffer1 := store buffer bytes
    if dwReadBytes = 0 then some st
    else
      let buffer2 :=
        if dwReadBytes < 1024 then
          buffer1.take dwReadBytes ++ List.replicate (1024 - dwReadBytes) 0
        else buffer1
      match WriteAudio st buffer2 1024 BLOCK_SIZE BLOCK_COUNT with
      | none => none
      | some st1 => PlayWavFile.readLoop file fuel (pos + dwReadBytes) buffer2 st1

/-- The function `PlayWavFile` up to and including the unprepare loop. -/
def PlayWavFile.drained (env : Env) : Outcome :=
  let st := idleState env.sched
  match env.file with
  | none => Outcome.exited (logCall (logCall st Call.CreateFile) Call.ExitProcess)
  | some file =>
    let st1 := logCall st Call.CreateFile
    let pos := (ReadFile file 0 36).length
    match openPool env BLOCK_SIZE BLOCK_COUNT st1 with
    | Outcome.returned st2 =>
      match PlayWavFile.readLoop file (file.length + 1) pos (uninit env 1024) st2 with
      | none => Outcome.stuck
      | some st3 => drain BLOCK_COUNT st3
    | other => other

/-- The function `PlayWavFile(fileName)`. -/
def PlayWavFile (env : Env) : Outcome :=
  match PlayWavFile.drained env with
  | Outcome.returned st => Outcome.returned (teardown st)
  | other => other

/-- The chunk search of `PlayFrame`: the position after the header of the
`data` chunk. -/
def PlayFrame.findData (file : List Nat) : Nat → Nat → List Nat → Option Nat
  | 0, _, _ => none
  | fuel + 1, pos, c =>
    let bytes := ReadFile file pos 8
    let c1 := store c bytes
    let pos1 := pos + bytes.length
    if le32 c1 0 = 0x61746164 then some pos1
    else PlayFrame.findData file fuel (SetFilePointer pos1 (toLONG (le32 c1 4))) c1

/-- The playback loop of `PlayFrame`. -/
def PlayFrame.readLoop (file : List Nat) (bufferSize iSingleFrameByteRate : Nat) :
    Nat → Nat → List Nat → Nat → State → Option State
  | 0, _, _, _, _ => none
  | fuel + 1, pos, buffer, dwTotalReadBytes, st =>
    let bytes := ReadFile file pos bufferSize
    let dwReadBytes := bytes.length
    let buffer1 := store buffer bytes
    if dwReadBytes = 0 then some st
    else
      let buffer2 :=
        if dwReadBytes < bufferSize then
          buffer1.take dwReadBytes ++ List.replicate (bufferSize - dwReadBytes) 0
        else buffer1
      match WriteAudio st buffer2 bufferSize iSingleFrameByteRate 1 with
      | none => none
      | some st1 =>
        let total := (dwTotalReadBytes + dwReadBytes) % 2 ^ 32
        if total = iSingleFrameByteRate then some st1
        else PlayFrame.readLoop file bufferSize iSingleFrameByteRate fuel (pos + dwReadBytes)
          buffer2 total st1

/-- The function `PlayFrame` up to and including the unprepare loop.  A
negative `int` handed to `AllocateBlocks` or compared with a `DWORD` is seen
through its 32-bit unsigned image; `new char[bufferSize]` with a negative size
throws. -/
def PlayFrame.drained (env : Env) (frameTime timeFrom : double) : Outcome :=
  let st := idleState env.sched
  match env.file with
  | none => Outcome.exited (logCall (logCall st Call.CreateFile) Call.ExitProcess)
  | some file =>
    let st1 := logCall st Call.CreateFile
    let waveHeader := readHeader env file
    let pos := (ReadFile file 0 36).length
    if wAudioFormatCode waveHeader ≠ 1 then Outcome.exited (logCall st1 Call.ExitProcess)
    else
      match PlayFrame.findData file env.scanFuel pos (uninit env 8) with
      | none => Outcome.stuck
      | some pos1 =>
        match toInt32 (mulDouble (ulByteRate waveHeader) frameTime),
              toInt32 (mulDouble (ulByteRate waveHeader) timeFrom) with
        | some iSingleFrameByteRate, some lBytesToTimeFrom =>
          let size := (iSingleFrameByteRate % 2 ^ 32).toNat
          match openPool env size 1 st1 with
          | Outcome.returned st2 =>
            let pos2 := SetFilePointer pos1 lBytesToTimeFrom
            let bufferSize := Int.tdiv iSingleFrameByteRate 8
            if bufferSize < 0 then Outcome.stuck
            else
              match PlayFrame.readLoop file bufferSize.toNat size (file.length + 1) pos2
                  (uninit env bufferSize.toNat) 0 st2 with
              | none => Outcome.stuck
              | some st3 => drain 1 st3
          | other => other
        | _, _ => Outcome.stuck

/-- The function `PlayFrame(fileName, frameTime, timeFrom)`. -/
def PlayFrame (env : Env) (frameTime timeFrom : double) : Outcome :=
  match PlayFrame.drained env frameTime timeFrom with
  | Outcome.returned st => Outcome.returned (teardown st)
  | other => other

/-- A source cut into chunks of `n` bytes, the last one padded with zeros up
to `n` bytes.  The first argument bounds the number of chunks. -/
def paddedChunks (n : Nat) : Nat → List Nat → List (List Nat)
  | 0, _ => []
  | fuel + 1, src =>
    if (src.take n).length = 0 then []
    else
      (src.take n ++ List.replicate (n - (src.take n).length) 0) ::
        paddedChunks n fuel (src.drop n)

/-- The state of a driver once the pool is allocated and the device is
open. -/
def openedState (env : Env) (size count : Nat) (st : State) : State :=
  logCall (logCall (resetPool env.H size count st) Call.InitializeCriticalSection)
    Call.waveOutOpen

/-- A canonical 16-bit stereo 44100 Hz file: the 36-byte header with the given
format code and byte rate, then one `data` chunk holding `payload`. -/
def wavFile (formatCode byteRate : Nat) (payload : List Nat) : List Nat :=
  [82, 73, 70, 70, 0, 0, 0, 0, 87, 65, 86, 69, 102, 109, 116, 32, 16, 0, 0, 0,
   formatCode % 256, formatCode / 256 % 256, 2, 0, 68, 172, 0, 0,
   byteRate % 256, byteRate / 256 % 256, byteRate / 65536 % 256, byteRate / 16777216 % 256,
   4, 0, 16, 0] ++
  [100, 97, 116, 97,
   payload.length % 256, payload.length / 256 % 256, payload.length / 65536 % 256,
   payload.length / 16777216 % 256] ++
  payload

/-- An environment in which the file opens, the allocation and the device
succeed, headers take 32 bytes, and the device follows `sched`. -/
def envOf (file : List Nat) (sched : List Nat) : Env :=
  { file := some file, heapOk := true, waveOutOk := true, H := 32, sched := sched,
    garbage := [], scanFuel := 4 }

/-- The blocks handed to the device by a call that returned, `none` when the
call did not return. -/
def Outcome.blocks : Outcome → Option (List (List Nat))
  | Outcome.returned st => some (st.played.map Submission.data)
  | _ => none

/-- The bytes `1, 2, ..., n`. -/
def countUp (n : Nat) : List Nat :=
  (List.range n).map (fun k => k + 1)

/-- The next `k` full reads of `bufferSize` bytes from position `pos`. -/
def frameChunks (file : List Nat) (bufferSize : Nat) : Nat → Nat → List (List Nat)
  | 0, _ => []
  | k + 1, pos => ReadFile file pos bufferSize :: frameChunks file bufferSize k (pos + bufferSize)

/-! ## The writer and the device as interleaved steps

The functions above let the device act only when the writer polls.  Here the
device may finish a block between any two steps of the writer, in particular
between `waveOutWrite` and the decrement of `waveFreeBlockCount`. -/

/-- Where the writer stands. -/
inductive PC where
  /-- Outside `WriteAudio`. -/
  | idle
  /-- At the test `size > 0` (line 162), with the input still to be written. -/
  | loopHead (data : List Nat) (size : Nat)
  /-- After `waveOutWrite` (line 179), before the decrement (line 181). -/
  | written (data : List Nat) (size : Nat)
  /-- At the test of the wait loop (line 185). -/
  | waiting (data : List Nat) (size : Nat)
  deriving DecidableEq

/-- The state of the program and the point the writer has reached. -/
structure Config where
  st : State
  pc : PC
  deriving DecidableEq

/-- One step of the system. -/
inductive Action where
  /-- The driver calls `WriteAudio(hWaveOut, data, size, S, C)`. -/
  | call (data : List Nat) (size : Nat)
  /-- The writer runs to its next point. -/
  | writer
  /-- The device finishes its oldest block and calls `WaveOutProc` with
  `WOM_DONE`. -/
  | done
  deriving DecidableEq

/-- The writer runs from one point to the next. -/
def writerStep (S C : Nat) (cfg : Config) : Option Config :=
  match cfg.pc with
  | PC.idle => none
  | PC.loopHead data size =>
    if size = 0 then some { st := cfg.st, pc := PC.idle }
    else
      match cfg.st.waveBlocks[cfg.st.waveCurrentBlock]? with
      | none => none
      | some current =>
        let st1 :=
          if current.prepared then waveOutUnprepareHeader cfg.st cfg.st.waveCurrentBlock
          else cfg.st
        if size < S - current.dwUser then
          match topUpCurrent st1 data size with
          | none => none
          | some st2 => some { st := st2, pc := PC.idle }
        else if S < current.dwUser then none
        else
          match writeCurrent st1 data (S - current.dwUser) S with
          | none => none
          | some st2 =>
            some { st := st2,
                   pc := PC.written (data.drop (S - current.dwUser))
                     (size - (S - current.dwUser)) }
  | PC.written data size => some { st := decrementFree cfg.st, pc := PC.waiting data size }
  | PC.waiting data size =>
    if cfg.st.waveFreeBlockCount = 0 then some cfg
    else
      match nextBlock cfg.st C with
      | none => none
      | some st2 => some { st := st2, pc := PC.loopHead data size }

/-- One step of the system; `none` when the step is not possible. -/
def step (S C : Nat) (cfg : Config) : Action → Option Config
  | Action.call data size =>
    match cfg.pc with
    | PC.idle => some { st := cfg.st, pc := PC.loopHead data size }
    | _ => none
  | Action.writer => writerStep S C cfg
  | Action.done =>
    match cfg.st.queue with
    | [] => none
    | _ :: _ => some { st := deviceDone cfg.st, pc := cfg.pc }

/-- A sequence of steps. -/
def run (S C : Nat) : Config → List Action → Option Config
  | cfg, [] => some cfg
  | cfg, a :: rest =>
    match step S C cfg a with
    | none => none
    | some cfg1 => run S C cfg1 rest

/-- The start of a playback call: a freshly reset pool, the writer outside
`WriteAudio`. -/
def initial (H S C : Nat) : Config :=
  { st := freshPool H S C [], pc := PC.idle }

/-- Whether the writer stands between `waveOutWrite` and the decrement. -/
def PC.isWritten : PC → Bool
  | PC.written _ _ => true
  | _ => false

/-- Whether the writer is about to use the current block: outside
`WriteAudio` or at the head of its loop. -/
def PC.atHead : PC → Bool
  | PC.idle => true
  | PC.loopHead _ _ => true
  | _ => false

/-- Whether the writer stands at the test of the wait loop. -/
def PC.isWaiting : PC → Bool
  | PC.waiting _ _ => true
  | _ => false

/-- The invariant of the interleaved system.  With `n` blocks submitted so far
and `m` of them pending, the pending blocks are the last `m` submitted, block
number `k` being at index `k % C`; the free count and the pending blocks add
up to `C`, plus one between `waveOutWrite` and the decrement; and the cursor
is at the next block to submit, or at the last one submitted while the writer
has not moved on. -/
def Inv (C : Nat) (cfg : Config) : Prop :=
  cfg.st.queue.length ≤ cfg.st.played.length ∧
  cfg.st.queue =
    (List.range' (cfg.st.played.length - cfg.st.queue.length) cfg.st.queue.length).map
      (fun k => k % C) ∧
  match cfg.pc with
  | PC.idle =>
    cfg.st.waveFreeBlockCount + cfg.st.queue.length = (C : Int) ∧
    1 ≤ cfg.st.waveFreeBlockCount ∧
    cfg.st.waveCurrentBlock = cfg.st.played.length % C
  | PC.loopHead _ _ =>
    cfg.st.waveFreeBlockCount + cfg.st.queue.length = (C : Int) ∧
    1 ≤ cfg.st.waveFreeBlockCount ∧
    cfg.st.waveCurrentBlock = cfg.st.played.length % C
  | PC.written _ _ =>
    cfg.st.waveFreeBlockCount + cfg.st.queue.length = (C : Int) + 1 ∧
    1 ≤ cfg.st.waveFreeBlockCount ∧
    1 ≤ cfg.st.played.length ∧
    cfg.st.waveCurrentBlock = (cfg.st.played.length - 1) % C
  | PC.waiting _ _ =>
    cfg.st.waveFreeBlockCount + cfg.st.queue.length = (C : Int) ∧
    0 ≤ cfg.st.waveFreeBlockCount ∧
    1 ≤ cfg.st.played.length ∧
    cfg.st.waveCurrentBlock = (cfg.st.played.length - 1) % C

/-- The steps of `PlayFrame` with a block of eight bytes and chunks of one
byte, up to the moment the block is written: eight calls of `WriteAudio` with
one byte each, the eighth stopped after `waveOutWrite`. -/
def eightCalls : List Action :=
  [Action.call [1] 1, Action.writer, Action.call [2] 1, Action.writer,
   Action.call [3] 1, Action.writer, Action.call [4] 1, Action.writer,
   Action.call [5] 1, Action.writer, Action.call [6] 1, Action.writer,
   Action.call [7] 1, Action.writer, Action.call [8] 1, Action.writer]

/-! ## Theorems: the layout of the pool -/

theorem AllocateBlocks.loop_length (size : Nat) :
    ∀ (k buffer : Nat), (AllocateBlocks.loop size k buffer).length = k
  | 0, _ => rfl
  | k + 1, buffer => by
    simp [AllocateBlocks.loop, AllocateBlocks.loop_length size k]

theorem AllocateBlocks.loop_getElem? (size : Nat) :
    ∀ (k buffer i : Nat), i < k →
      (AllocateBlocks.loop size k buffer)[i]? =
        some { lpData := buffer + i * size, dwBufferLength := size, dwUser := 0,
               prepared := false }
  | 0, _, _, h => absurd h (Nat.not_lt_zero _)
  | k + 1, buffer, 0, _ => by simp [AllocateBlocks.loop]
  | k + 1, buffer, i + 1, h => by
    have hi : i < k := Nat.lt_of_succ_lt_succ h
    simp only [AllocateBlocks.loop, List.getElem?_cons_succ]
    rw [AllocateBlocks.loop_getElem? size k (buffer + size) i hi]
    congr 2
    ring

theorem AllocateBlocks_blocks_length (H size count : Nat) :
    (AllocateBlocks H size count).blocks.length = count := by
  simp [AllocateBlocks, AllocateBlocks.loop_length]

theorem AllocateBlocks_getElem? (H size count i : Nat) (hi : i < count) :
    (AllocateBlocks H size count).blocks[i]? =
      some { lpData := H * count + i * size, dwBufferLength := size, dwUser := 0,
             prepared := false } := by
  simp [AllocateBlocks, AllocateBlocks.loop_getElem? size count (H * count) i hi]

/-- C8: when the request `(size + H) * count` fits a `DWORD`,
`AllocateBlocks(size, count)` asks for exactly that many bytes, sets the length
of every block to `size` and its buffer to the bytes
`[H*count + i*size, H*count + (i+1)*size)` of the region; the buffers lie after
the header array, inside the region, and do not overlap. -/
theorem AllocateBlocks_layout (H size count : Nat) (_hsize : 1 ≤ size) (_hcount : 1 ≤ count)
    (hfit : (size + H) * count < 2 ^ 32) :
    (AllocateBlocks H size count).dwTotalBufferSize = (size + H) * count ∧
    (AllocateBlocks H size count).blocks.length = count ∧
    (∀ i, i < count → ∃ b, (AllocateBlocks H size count).blocks[i]? = some b ∧
        b.dwBufferLength = size ∧
        b.lpData = H * count + i * size ∧
        b.lpData + b.dwBufferLength = H * count + (i + 1) * size ∧
        H * count ≤ b.lpData ∧
        b.lpData + b.dwBufferLength ≤ (AllocateBlocks H size count).dwTotalBufferSize) ∧
    (∀ i j bi bj, i < j → j < count →
        (AllocateBlocks H size count).blocks[i]? = some bi →
        (AllocateBlocks H size count).blocks[j]? = some bj →
        bi.lpData + bi.dwBufferLength ≤ bj.lpData) := by
  have htot : (AllocateBlocks H size count).dwTotalBufferSize = (size + H) * count := by
    show ((size + H) * count) % 2 ^ 32 = (size + H) * count
    exact Nat.mod_eq_of_lt hfit
  refine ⟨htot, AllocateBlocks_blocks_length H size count, ?_, ?_⟩
  · intro i hi
    refine ⟨_, AllocateBlocks_getElem? H size count i hi, rfl, rfl, ?_, ?_, ?_⟩
    · simp only; ring
    · simp only; exact Nat.le_add_right _ _
    · rw [htot]
      simp only
      have h1 : (i + 1) * size ≤ count * size := Nat.mul_le_mul_right size hi
      nlinarith
  · intro i j bi bj hij hj hbi hbj
    rw [AllocateBlocks_getElem? H size count i (lt_trans hij hj)] at hbi
    rw [AllocateBlocks_getElem? H size count j hj] at hbj
    cases hbi
    cases hbj
    simp only
    have h1 : (i + 1) * size ≤ j * size := Nat.mul_le_mul_right size hij
    nlinarith

/-- C8, at a concrete pool: 20 blocks of 8192 bytes with 48-byte headers. -/
theorem AllocateBlocks_layout_witness :
    (AllocateBlocks 48 8192 20).dwTotalBufferSize = (8192 + 48) * 20 ∧
    (AllocateBlocks 48 8192 20).blocks.length = 20 ∧
    (∀ i, i < 20 → ∃ b, (AllocateBlocks 48 8192 20).blocks[i]? = some b ∧
        b.dwBufferLength = 8192 ∧
        b.lpData = 48 * 20 + i * 8192 ∧
        b.lpData + b.dwBufferLength = 48 * 20 + (i + 1) * 8192 ∧
        48 * 20 ≤ b.lpData ∧
        b.lpData + b.dwBufferLength ≤ (AllocateBlocks 48 8192 20).dwTotalBufferSize) ∧
    (∀ i j bi bj, i < j → j < 20 →
        (AllocateBlocks 48 8192 20).blocks[i]? = some bi →
        (AllocateBlocks 48 8192 20).blocks[j]? = some bj →
        bi.lpData + bi.dwBufferLength ≤ bj.lpData) :=
  AllocateBlocks_layout 48 8192 20 (by decide) (by decide) (by decide)

/-! ## Theorems: the device and the wait loop -/

theorem deviceDone_fields (st : State) :
    (deviceDone st).waveBlocks = st.waveBlocks ∧
    (deviceDone st).waveCurrentBlock = st.waveCurrentBlock ∧
    (deviceDone st).heap = st.heap ∧
    (deviceDone st).played = st.played ∧
    (deviceDone st).sched = st.sched ∧
    (deviceDone st).calls = st.calls ∧
    (deviceDone st).queue = st.queue.drop 1 ∧
    (deviceDone st).waveFreeBlockCount + (deviceDone st).queue.length =
      st.waveFreeBlockCount + st.queue.length := by
  unfold deviceDone
  cases hq : st.queue with
  | nil => simp [hq]
  | cons i rest =>
    simp [WaveOutProc, WOM_DONE]
    omega

theorem deviceRun_fields : ∀ (k : Nat) (st : State),
    (deviceRun k st).waveBlocks = st.waveBlocks ∧
    (deviceRun k st).waveCurrentBlock = st.waveCurrentBlock ∧
    (deviceRun k st).heap = st.heap ∧
    (deviceRun k st).played = st.played ∧
    (deviceRun k st).sched = st.sched ∧
    (deviceRun k st).calls = st.calls ∧
    (deviceRun k st).queue = st.queue.drop k ∧
    (deviceRun k st).waveFreeBlockCount + (deviceRun k st).queue.length =
      st.waveFreeBlockCount + st.queue.length
  | 0, st => by simp [deviceRun]
  | k + 1, st => by
    obtain ⟨h1, h2, h3, h4, h5, h6, h7, h8⟩ := deviceDone_fields st
    obtain ⟨g1, g2, g3, g4, g5, g6, g7, g8⟩ := deviceRun_fields k (deviceDone st)
    simp only [deviceRun]
    refine ⟨g1.trans h1, g2.trans h2, g3.trans h3, g4.trans h4, g5.trans h5, g6.trans h6, ?_,
      g8.trans h8⟩
    rw [g7, h7, List.drop_drop, Nat.add_comm]

theorem waitLoop_fields : ∀ (sched : List Nat) (st st' : State),
    waitLoop sched st = some st' →
    st'.waveBlocks = st.waveBlocks ∧
    st'.waveCurrentBlock = st.waveCurrentBlock ∧
    st'.heap = st.heap ∧
    st'.played = st.played ∧
    st'.calls = st.calls ∧
    (∃ k, st'.queue = st.queue.drop k) ∧
    st'.waveFreeBlockCount + st'.queue.length = st.waveFreeBlockCount + st.queue.length ∧
    st'.waveFreeBlockCount ≠ 0
  | [], st, st', h => by
    simp only [waitLoop] at h
    split at h
    · cases h
    · rename_i hne
      cases h
      exact ⟨rfl, rfl, rfl, rfl, rfl, ⟨0, rfl⟩, rfl, hne⟩
  | k :: rest, st, st', h => by
    obtain ⟨g1, g2, g3, g4, _, g6, g7, g8⟩ := deviceRun_fields k st
    simp only [waitLoop] at h
    split at h
    · obtain ⟨h1, h2, h3, h4, h5, ⟨j, h6⟩, h7, h8⟩ := waitLoop_fields rest _ st' h
      refine ⟨h1.trans g1, h2.trans g2, h3.trans g3, h4.trans g4, h5.trans g6, ⟨k + j, ?_⟩,
        h7.trans g8, h8⟩
      rw [h6, g7, List.drop_drop]
    · rename_i hne
      cases h
      exact ⟨g1, g2, g3, g4, g6, ⟨k, g7⟩, g8, hne⟩

/-! ## Theorems: one pass of the writer -/

theorem Frame.refl (st : State) : Frame st st :=
  ⟨rfl, rfl, rfl, rfl⟩

theorem Frame.trans {a b c : State} (h1 : Frame a b) (h2 : Frame b c) : Frame a c :=
  ⟨h2.buffers.trans h1.buffers, h2.heapLength.trans h1.heapLength,
    h2.counter.trans h1.counter, h2.calls.trans h1.calls⟩

theorem Frame.length_eq {a b : State} (h : Frame a b) :
    b.waveBlocks.length = a.waveBlocks.length := by
  have := congrArg List.length h.buffers
  simpa using this

theorem modify_id_eq (l : List WAVEHDR) (i : Nat) : l.modify (fun b => b) i = l := by
  apply List.ext_getElem?
  intro j
  rw [List.getElem?_modify]
  cases l[j]? <;> simp

theorem map_lpData_modify (g : WAVEHDR → WAVEHDR) (hg : ∀ b, (g b).lpData = b.lpData)
    (l : List WAVEHDR) (i : Nat) :
    (l.modify g i).map WAVEHDR.lpData = l.map WAVEHDR.lpData := by
  apply List.ext_getElem?
  intro j
  rw [List.getElem?_map, List.getElem?_map, List.getElem?_modify]
  cases l[j]? with
  | none => rfl
  | some b =>
    by_cases hij : i = j <;> simp [hij, hg]

theorem memcpy_length (heap : List Nat) (dst : Nat) (src : List Nat) (n : Nat)
    (h1 : dst + n ≤ heap.length) (h2 : n ≤ src.length) :
    (memcpy heap dst src n).length = heap.length := by
  simp only [memcpy, List.length_append, List.length_take, List.length_drop]
  omega

theorem memcpy_window (heap : List Nat) (a f : Nat) (src : List Nat) (n : Nat)
    (h1 : a + f + n ≤ heap.length) (h2 : n ≤ src.length) :
    ((memcpy heap (a + f) src n).drop a).take (f + n) = (heap.drop a).take f ++ src.take n := by
  have e1 : (heap.take (a + f)).length = a + f := by
    rw [List.length_take]; omega
  have e2 : (src.take n).length = n := by
    rw [List.length_take]; omega
  have e3 : heap.take (a + f) = heap.take a ++ (heap.drop a).take f := List.take_add heap a f
  have e4 : (heap.take a).length = a := by
    rw [List.length_take]; omega
  have e5 : ((heap.drop a).take f).length = f := by
    rw [List.length_take, List.length_drop]; omega
  simp only [memcpy]
  rw [e3, List.append_assoc, List.append_assoc, List.drop_left' e4, ← List.append_assoc]
  apply List.take_left'
  rw [List.length_append, e5, e2]

/-- The header check at the top of the loop changes at most the prepared bit
of the current block. -/
theorem unprepare_eq (st : State) (p : Bool) :
    ∃ g : WAVEHDR → WAVEHDR,
      (∀ b, (g b).lpData = b.lpData ∧ (g b).dwUser = b.dwUser ∧
        (g b).dwBufferLength = b.dwBufferLength) ∧
      (if p then waveOutUnprepareHeader st st.waveCurrentBlock else st) =
        { st with waveBlocks := st.waveBlocks.modify g st.waveCurrentBlock } := by
  by_cases hp : p = true
  · by_cases hq : st.waveCurrentBlock ∈ st.queue
    · refine ⟨fun b => b, fun b => ⟨rfl, rfl, rfl⟩, ?_⟩
      simp [hp, waveOutUnprepareHeader, hq, modify_id_eq]
    · refine ⟨fun b => { b with prepared := false }, fun b => ⟨rfl, rfl, rfl⟩, ?_⟩
      simp [hp, waveOutUnprepareHeader, hq]
  · refine ⟨fun b => b, fun b => ⟨rfl, rfl, rfl⟩, ?_⟩
    simp [hp, modify_id_eq]

theorem copyToCurrent_eq_some {st : State} {data : List Nat} {n : Nat} {st' : State}
    (h : copyToCurrent st data n = some st') :
    ∃ b, st.waveBlocks[st.waveCurrentBlock]? = some b ∧
      b.lpData + b.dwUser + n ≤ st.heap.length ∧ n ≤ data.length ∧
      st' = { st with heap := memcpy st.heap (b.lpData + b.dwUser) data n } := by
  unfold copyToCurrent at h
  cases hb : st.waveBlocks[st.waveCurrentBlock]? with
  | none => simp [hb] at h
  | some b =>
    simp only [hb] at h
    split at h
    · rename_i hle
      cases h
      exact ⟨b, rfl, hle.1, hle.2, rfl⟩
    · cases h

/-- The branch of `WriteAudio` that only tops the current block up. -/
theorem topUp_pass (st : State) (g : WAVEHDR → WAVEHDR)
    (hg : ∀ b, (g b).lpData = b.lpData ∧ (g b).dwUser = b.dwUser ∧
      (g b).dwBufferLength = b.dwBufferLength)
    (c : WAVEHDR) (hc : st.waveBlocks[st.waveCurrentBlock]? = some c)
    (data : List Nat) (size : Nat) (st' : State)
    (h : topUpCurrent { st with waveBlocks := st.waveBlocks.modify g st.waveCurrentBlock }
      data size = some st') :
    st'.played = st.played ∧ st'.waveCurrentBlock = st.waveCurrentBlock ∧
    fillOffset st' = c.dwUser + size ∧ Frame st st' ∧
    pendingBytes st' = pendingBytes st ++ data.take size ∧
    st'.queue = st.queue ∧ st'.sched = st.sched ∧
    st'.waveFreeBlockCount = st.waveFreeBlockCount := by
  unfold topUpCurrent at h
  cases hcp : copyToCurrent { st with waveBlocks := st.waveBlocks.modify g st.waveCurrentBlock }
      data size with
  | none => simp [hcp] at h
  | some st2 =>
  simp only [hcp, Option.some.injEq] at h
  subst h
  obtain ⟨b, hb, hle, hlen, rfl⟩ := copyToCurrent_eq_some hcp
  simp only [List.getElem?_modify_eq, hc, Option.map_eq_map, Option.map_some',
    Option.some.injEq] at hb
  subst hb
  obtain ⟨g1, g2, g3⟩ := hg c
  rw [g1, g2] at hle
  refine ⟨rfl, rfl, ?_, ⟨?_, ?_, rfl, rfl⟩, ?_, rfl, rfl, rfl⟩
  · simp [fillOffset, List.getElem?_modify_eq, hc, g2]
  · show List.map WAVEHDR.lpData (List.modify _ _ (List.modify g _ st.waveBlocks)) = _
    exact (map_lpData_modify (fun b => { b with dwUser := b.dwUser + size }) (fun _ => rfl)
      _ _).trans (map_lpData_modify g (fun b => (hg b).1) _ _)
  · show (memcpy st.heap _ data size).length = st.heap.length
    have hle2 : c.lpData + c.dwUser + size ≤ st.heap.length := hle
    exact memcpy_length _ _ _ _ (by rw [g1, g2]; exact hle2) hlen
  · simp only [pendingBytes, List.getElem?_modify_eq, hc, Option.map_eq_map, Option.map_some',
      g1, g2]
    exact memcpy_window st.heap c.lpData c.dwUser data size hle hlen

theorem writeCurrent_eq_some {st : State} {data : List Nat} {remain blockSize : Nat}
    {st' : State} (h : writeCurrent st data remain blockSize = some st') :
    ∃ b, st.waveBlocks[st.waveCurrentBlock]? = some b ∧
      b.lpData + b.dwUser + remain ≤ st.heap.length ∧ remain ≤ data.length ∧
      st' = { st with
        heap := memcpy st.heap (b.lpData + b.dwUser) data remain
        waveBlocks := (st.waveBlocks.modify (fun b => { b with dwBufferLength := blockSize })
          st.waveCurrentBlock).modify (fun b => { b with prepared := true }) st.waveCurrentBlock
        queue := st.queue ++ [st.waveCurrentBlock]
        played := st.played ++
          [{ index := st.waveCurrentBlock, dwBufferLength := blockSize,
             data := ((memcpy st.heap (b.lpData + b.dwUser) data remain).drop b.lpData).take
               blockSize }] } := by
  unfold writeCurrent at h
  cases hcp : copyToCurrent st data remain with
  | none => simp [hcp] at h
  | some st1 =>
    obtain ⟨b, hb, hle, hlen, rfl⟩ := copyToCurrent_eq_some hcp
    simp only [hcp, waveOutWrite, waveOutPrepareHeader, List.getElem?_modify_eq, hb,
      Option.map_eq_map, Option.map_some', Option.some.injEq] at h
    exact ⟨b, hb, hle, hlen, h.symm⟩

theorem submitCurrent_eq_some {st : State} {data : List Nat} {remain blockSize : Nat}
    {st' : State} (h : submitCurrent st data remain blockSize = some st') :
    ∃ b, st.waveBlocks[st.waveCurrentBlock]? = some b ∧
      b.lpData + b.dwUser + remain ≤ st.heap.length ∧ remain ≤ data.length ∧
      st' = { st with
        heap := memcpy st.heap (b.lpData + b.dwUser) data remain
        waveBlocks := (st.waveBlocks.modify (fun b => { b with dwBufferLength := blockSize })
          st.waveCurrentBlock).modify (fun b => { b with prepared := true }) st.waveCurrentBlock
        queue := st.queue ++ [st.waveCurrentBlock]
        played := st.played ++
          [{ index := st.waveCurrentBlock, dwBufferLength := blockSize,
             data := ((memcpy st.heap (b.lpData + b.dwUser) data remain).drop b.lpData).take
               blockSize }]
        waveFreeBlockCount := st.waveFreeBlockCount - 1 } := by
  unfold submitCurrent at h
  cases hw : writeCurrent st data remain blockSize with
  | none => simp [hw] at h
  | some st1 =>
    obtain ⟨b, hb, hle, hlen, rfl⟩ := writeCurrent_eq_some hw
    simp only [hw, Option.some.injEq, decrementFree] at h
    exact ⟨b, hb, hle, hlen, h.symm⟩

theorem nextBlock_eq_some {st : State} {blockCount : Nat} {st' : State}
    (h : nextBlock st blockCount = some st') :
    blockCount ≠ 0 ∧
    (∃ b, st.waveBlocks[(st.waveCurrentBlock + 1) % blockCount]? = some b) ∧
    st' = { st with
      waveCurrentBlock := (st.waveCurrentBlock + 1) % blockCount
      waveBlocks := st.waveBlocks.modify (fun b => { b with dwUser := 0 })
        ((st.waveCurrentBlock + 1) % blockCount) } := by
  unfold nextBlock at h
  split at h
  · cases h
  · rename_i hne
    cases hb : st.waveBlocks[(st.waveCurrentBlock + 1) % blockCount]? with
    | none => simp [hb] at h
    | some b =>
      simp only [hb, Option.some.injEq] at h
      exact ⟨hne, ⟨b, rfl⟩, h.symm⟩

/-- The branch of `WriteAudio` that fills the current block, submits it, waits
and moves to the next block. -/
theorem submit_pass (st : State) (g : WAVEHDR → WAVEHDR)
    (hg : ∀ b, (g b).lpData = b.lpData ∧ (g b).dwUser = b.dwUser ∧
      (g b).dwBufferLength = b.dwBufferLength)
    (c : WAVEHDR) (hc : st.waveBlocks[st.waveCurrentBlock]? = some c)
    (data : List Nat) (blockSize blockCount : Nat) (hf : c.dwUser ≤ blockSize)
    (st2 st3 st4 : State)
    (h1 : submitCurrent { st with waveBlocks := st.waveBlocks.modify g st.waveCurrentBlock }
      data (blockSize - c.dwUser) blockSize = some st2)
    (h2 : waitLoop st2.sched st2 = some st3)
    (h3 : nextBlock st3 blockCount = some st4) :
    st4.played = st.played ++
      [{ index := st.waveCurrentBlock, dwBufferLength := blockSize,
         data := pendingBytes st ++ data.take (blockSize - c.dwUser) }] ∧
    (pendingBytes st ++ data.take (blockSize - c.dwUser)).length = blockSize ∧
    st4.waveCurrentBlock = (st.waveCurrentBlock + 1) % blockCount ∧
    fillOffset st4 = 0 ∧ pendingBytes st4 = [] ∧ Frame st st4 ∧ blockCount ≠ 0 ∧
    st4.waveFreeBlockCount ≠ 0 := by
  obtain ⟨b, hb, hle, hlen, rfl⟩ := submitCurrent_eq_some h1
  simp only [List.getElem?_modify_eq, hc, Option.map_eq_map, Option.map_some',
    Option.some.injEq] at hb
  subst hb
  obtain ⟨g1, g2, g3⟩ := hg c
  obtain ⟨w1, w2, w3, w4, w5, ⟨k, w6⟩, w7, w8⟩ := waitLoop_fields _ _ _ h2
  obtain ⟨n1, ⟨nb, n2⟩, rfl⟩ := nextBlock_eq_some h3
  simp only at w1 w2 w3 w4 w5 w6 w7 hle
  rw [g1, g2] at hle
  have hwin := memcpy_window st.heap c.lpData c.dwUser data (blockSize - c.dwUser) hle hlen
  have hfull : c.dwUser + (blockSize - c.dwUser) = blockSize := by omega
  rw [hfull] at hwin
  have hpend : pendingBytes st = (st.heap.drop c.lpData).take c.dwUser := by
    simp [pendingBytes, hc]
  refine ⟨?_, ?_, ?_, ?_, ?_, ⟨?_, ?_, ?_, ?_⟩, n1, ?_⟩
  · show st3.played = _
    rw [w4, g1, g2, hwin, hpend]
  · rw [hpend, ← hwin, List.length_take, List.length_drop,
      memcpy_length _ _ _ _ (by omega) hlen]
    omega
  · show (st3.waveCurrentBlock + 1) % blockCount = _
    rw [w2]
  · simp [fillOffset, List.getElem?_modify_eq, n2]
  · simp [pendingBytes, List.getElem?_modify_eq, n2]
  · show List.map WAVEHDR.lpData (List.modify _ _ st3.waveBlocks) = _
    refine (map_lpData_modify _ ?_ _ _).trans ?_
    · intro _; rfl
    rw [w1]
    show List.map WAVEHDR.lpData (List.modify _ _ (List.modify _ _ (List.modify g _ _))) = _
    refine (map_lpData_modify _ ?_ _ _).trans ?_
    · intro _; rfl
    refine (map_lpData_modify _ ?_ _ _).trans ?_
    · intro _; rfl
    exact map_lpData_modify g (fun b => (hg b).1) _ _
  · show st3.heap.length = _
    rw [w3]
    exact memcpy_length _ _ _ _ (by omega) hlen
  · show st3.waveFreeBlockCount + (st3.queue.length : Int) = _
    rw [w7]
    simp only [List.length_append, List.length_singleton, Nat.cast_add, Nat.cast_one]
    omega
  · show st3.calls = _
    rw [w5]
  · exact w8

theorem submittedBytes_append (st st' : State) (new : List Submission)
    (h : st'.played = st.played ++ new) :
    submittedBytes st' = submittedBytes st ++ (new.map Submission.data).flatten := by
  simp [submittedBytes, h]

/-- What one call of the `while` loop of `WriteAudio` does, when it comes
back. -/
theorem WriteAudio.loop_spec (blockSize blockCount : Nat) (hS : 0 < blockSize) :
    ∀ (fuel : Nat) (st : State) (data : List Nat) (size : Nat) (st' : State),
      WriteAudio.loop blockSize blockCount fuel st data size = some st' →
      fillOffset st < blockSize →
      st.waveCurrentBlock < blockCount →
      (∃ new : List Submission, st'.played = st.played ++ new ∧
        new.length = (fillOffset st + size) / blockSize ∧
        ∀ s ∈ new, s.dwBufferLength = blockSize ∧ s.data.length = blockSize) ∧
      streamed st' = streamed st ++ data.take size ∧
      st'.waveCurrentBlock =
        (st.waveCurrentBlock + (fillOffset st + size) / blockSize) % blockCount ∧
      fillOffset st' = (fillOffset st + size) % blockSize ∧
      Frame st st'
  | 0, st, data, size, st', h, _, _ => by simp [WriteAudio.loop] at h
  | fuel + 1, st, data, size, st', h, hf, hcur => by
    rw [WriteAudio.loop] at h
    by_cases hsize : size = 0
    · subst hsize
      simp only [↓reduceIte, Option.some.injEq] at h
      subst h
      refine ⟨⟨[], by simp, ?_, by simp⟩, by simp, ?_, ?_, Frame.refl _⟩
      · simp [Nat.div_eq_of_lt hf]
      · simp [Nat.div_eq_of_lt hf, Nat.mod_eq_of_lt hcur]
      · simp [Nat.mod_eq_of_lt hf]
    · simp only [hsize, ↓reduceIte] at h
      cases hc : st.waveBlocks[st.waveCurrentBlock]? with
      | none => simp [hc] at h
      | some c =>
        simp only [hc] at h
        have hfill : fillOffset st = c.dwUser := by simp [fillOffset, hc]
        rw [hfill] at hf ⊢
        obtain ⟨g, hg, hun⟩ := unprepare_eq st c.prepared
        rw [hun] at h
        by_cases hlt : size < blockSize - c.dwUser
        · simp only [hlt, ↓reduceIte] at h
          · obtain ⟨p1, p2, p3, p4, p5, _, _, _⟩ := topUp_pass st g hg c hc data size st' h
            have hsum : c.dwUser + size < blockSize := by omega
            refine ⟨⟨[], by simp [p1], ?_, by simp⟩, ?_, ?_, ?_, p4⟩
            · simp [Nat.div_eq_of_lt hsum]
            · simp [streamed, submittedBytes, p1, p5]
            · simp [Nat.div_eq_of_lt hsum, Nat.mod_eq_of_lt hcur, p2]
            · rw [p3, Nat.mod_eq_of_lt hsum]
        · simp only [hlt, ↓reduceIte] at h
          have hnot : ¬ blockSize < c.dwUser := by omega
          simp only [hnot, ↓reduceIte] at h
          cases h1 : submitCurrent
              { st with waveBlocks := st.waveBlocks.modify g st.waveCurrentBlock } data
              (blockSize - c.dwUser) blockSize with
          | none => simp [h1] at h
          | some st2 =>
            simp only [h1] at h
            cases h2 : waitLoop st2.sched st2 with
            | none => simp [h2] at h
            | some st3 =>
              simp only [h2] at h
              cases h3 : nextBlock st3 blockCount with
              | none => simp [h3] at h
              | some st4 =>
                simp only [h3] at h
                obtain ⟨q1, q2, q3, q4, q5, q6, q7, _⟩ :=
                  submit_pass st g hg c hc data blockSize blockCount (by omega) st2 st3 st4 h1 h2 h3
                have hcur4 : st4.waveCurrentBlock < blockCount := by
                  rw [q3]; exact Nat.mod_lt _ (Nat.pos_of_ne_zero q7)
                have hf4 : fillOffset st4 < blockSize := by rw [q4]; exact hS
                obtain ⟨⟨new, r1, r2, r3⟩, r4, r5, r6, r7⟩ :=
                  WriteAudio.loop_spec blockSize blockCount hS fuel st4 _ _ st' h hf4 hcur4
                rw [q4, Nat.zero_add] at r2 r5 r6
                have hdecomp : c.dwUser + size = blockSize + (size - (blockSize - c.dwUser)) := by
                  omega
                have hdiv : (c.dwUser + size) / blockSize =
                    (size - (blockSize - c.dwUser)) / blockSize + 1 := by
                  rw [hdecomp, Nat.add_div_left _ hS]
                have hmod : (c.dwUser + size) % blockSize =
                    (size - (blockSize - c.dwUser)) % blockSize := by
                  rw [hdecomp, Nat.add_mod_left]
                refine ⟨⟨Submission.mk st.waveCurrentBlock blockSize
                    (pendingBytes st ++ data.take (blockSize - c.dwUser)) :: new,
                  ?_, ?_, ?_⟩, ?_, ?_, ?_, q6.trans r7⟩
                · rw [r1, q1, List.append_assoc]; rfl
                · rw [List.length_cons, r2, hdiv]
                · intro s hs
                  rcases List.mem_cons.1 hs with rfl | hs
                  · exact ⟨rfl, q2⟩
                  · exact r3 s hs
                · rw [r4]
                  simp only [streamed, q5, List.append_nil]
                  rw [submittedBytes_append st st4 _ q1]
                  simp only [List.map_cons, List.map_nil, List.flatten_cons, List.flatten_nil,
                    List.append_nil, List.append_assoc]
                  congr 2
                  have : size = (blockSize - c.dwUser) + (size - (blockSize - c.dwUser)) := by
                    omega
                  conv_rhs => rw [this, List.take_add]
                · rw [r5, q3, hdiv, Nat.mod_add_mod]
                  congr 1
                  omega
                · rw [r6, hmod]

/-! ## Theorems: the cursor after a call of `WriteAudio` -/

/-- C1: with block size `S ≥ 1`, pool size `C ≥ 1`, current block `c < C` and
fill offset `f < S`, a call of `WriteAudio` with `n` bytes that comes back
has submitted `(f + n) / S` blocks and leaves the cursor at block
`(c + (f + n) / S) % C` with fill offset `(f + n) % S`.  An exact fit submits
and leaves offset 0; an empty input changes nothing; `S - 1` bytes and then one
byte into an empty block submit nothing and then one block; `5 * (S / 2)` bytes
into an empty block (`S` even) submit two blocks and leave `S / 2` bytes. -/
theorem WriteAudio_cursor (S C c f n : Nat) (hS : 1 ≤ S) (hC : 1 ≤ C) (hc : c < C)
    (hf : f < S) (st : State) (data : List Nat) (st' : State)
    (hcur : st.waveCurrentBlock = c) (hfill : fillOffset st = f)
    (h : WriteAudio st data n S C = some st') :
    st'.played.length = st.played.length + (f + n) / S ∧
    st'.waveCurrentBlock = (c + (f + n) / S) % C ∧
    fillOffset st' = (f + n) % S ∧
    (n = S - f → st'.played.length = st.played.length + 1 ∧ fillOffset st' = 0) ∧
    (n = 0 → st' = st) ∧
    (f = 0 → n = S - 1 → st'.played.length = st.played.length ∧
      ∀ data2 st2, WriteAudio st' data2 1 S C = some st2 →
        st2.played.length = st.played.length + 1 ∧ fillOffset st2 = 0) ∧
    (f = 0 → S % 2 = 0 → n = 5 * (S / 2) →
      st'.played.length = st.played.length + 2 ∧ fillOffset st' = S / 2) := by
  have hC0 : 0 < C := hC
  obtain ⟨⟨new, r1, r2, _⟩, _, r5, r6, _⟩ :=
    WriteAudio.loop_spec S C hS (n + 2) st data n st' h (by rw [hfill]; exact hf)
      (by rw [hcur]; exact hc)
  rw [hfill] at r2 r6
  rw [hfill, hcur] at r5
  have hlen : st'.played.length = st.played.length + (f + n) / S := by
    rw [r1, List.length_append, r2]
  refine ⟨hlen, r5, r6, ?_, ?_, ?_, ?_⟩
  · intro hn
    have hsum : f + n = S := by omega
    rw [hlen, r6, hsum, Nat.div_self hS, Nat.mod_self]
    exact ⟨rfl, rfl⟩
  · intro hn
    subst hn
    simpa [WriteAudio, WriteAudio.loop] using h.symm
  · intro hf0 hn
    subst hf0
    have hlt : 0 + n < S := by omega
    have hlen1 : st'.played.length = st.played.length := by
      rw [hlen, Nat.div_eq_of_lt hlt]; rfl
    refine ⟨hlen1, ?_⟩
    intro data2 st2 h2
    have hfill1 : fillOffset st' = S - 1 := by
      rw [r6, Nat.mod_eq_of_lt hlt]; omega
    have hcur1 : st'.waveCurrentBlock < C := by
      rw [r5]; exact Nat.mod_lt _ hC0
    obtain ⟨⟨new2, s1, s2, _⟩, _, _, s6, _⟩ :=
      WriteAudio.loop_spec S C hS (1 + 2) st' data2 1 st2 h2 (by rw [hfill1]; omega) hcur1
    have hone : S - 1 + 1 = S := by omega
    rw [hfill1, hone] at s2 s6
    rw [Nat.div_self hS] at s2
    rw [Nat.mod_self] at s6
    refine ⟨?_, s6⟩
    rw [s1, List.length_append, s2, hlen1]
  · intro hf0 heven hn
    subst hf0
    have hdiv : (0 + n) / S = 2 := by
      rw [hn]
      have : 0 + 5 * (S / 2) = S / 2 + S * 2 := by omega
      rw [this, Nat.add_mul_div_left _ _ hS, Nat.div_eq_of_lt (by omega)]
    have hmod : (0 + n) % S = S / 2 := by
      rw [hn]
      have : 0 + 5 * (S / 2) = S / 2 + S * 2 := by omega
      rw [this, Nat.add_mul_mod_self_left, Nat.mod_eq_of_lt (by omega)]
    rw [hlen, r6, hdiv, hmod]
    exact ⟨rfl, rfl⟩

/-- C1 at a concrete call: ten bytes into an empty pool of two 4-byte blocks,
the device finishing one block before each poll. -/
theorem WriteAudio_cursor_witness :
    ∃ st', WriteAudio (resetPool 3 4 2 (idleState [1, 1, 1]))
        [1, 2, 3, 4, 5, 6, 7, 8, 9, 10] 10 4 2 = some st' ∧
      st'.played.length = 2 ∧ st'.waveCurrentBlock = 0 ∧ fillOffset st' = 2 := by
  obtain ⟨st', h⟩ := Option.isSome_iff_exists.1
    (by decide : (WriteAudio (resetPool 3 4 2 (idleState [1, 1, 1]))
        [1, 2, 3, 4, 5, 6, 7, 8, 9, 10] 10 4 2).isSome = true)
  have key := WriteAudio_cursor 4 2 0 0 10 (by decide) (by decide) (by decide) (by decide)
    (resetPool 3 4 2 (idleState [1, 1, 1])) [1, 2, 3, 4, 5, 6, 7, 8, 9, 10] st' rfl rfl h
  exact ⟨st', h, key.1, key.2.1, key.2.2.1⟩

/-! ## Theorems: the writer comes back when the device keeps up -/

theorem PoolOK.of_frame {S C : Nat} {a b : State} (h : PoolOK S C a) (hf : Frame a b) :
    PoolOK S C b := by
  refine ⟨hf.length_eq.trans h.1, ?_⟩
  rw [hf.buffers, hf.heapLength]
  exact h.2

theorem PoolOK.block_fits {S C : Nat} {st : State} (h : PoolOK S C st) {i : Nat} {b : WAVEHDR}
    (hb : st.waveBlocks[i]? = some b) : b.lpData + S ≤ st.heap.length := by
  apply h.2
  rw [List.mem_map]
  exact ⟨b, List.getElem?_mem hb, rfl⟩

theorem copyToCurrent_of_fits {st : State} (data : List Nat) (n : Nat) {b : WAVEHDR}
    (hb : st.waveBlocks[st.waveCurrentBlock]? = some b)
    (hle : b.lpData + b.dwUser + n ≤ st.heap.length) (hlen : n ≤ data.length) :
    copyToCurrent st data n =
      some { st with heap := memcpy st.heap (b.lpData + b.dwUser) data n } := by
  simp [copyToCurrent, hb, hle, hlen]

theorem resetPool_ok (H S C : Nat) (hfit : (S + H) * C < 2 ^ 32) (st : State) :
    PoolOK S C (resetPool H S C st) := by
  refine ⟨AllocateBlocks_blocks_length H S C, ?_⟩
  intro a ha
  simp only [resetPool, List.mem_map] at ha
  obtain ⟨b, hb, rfl⟩ := ha
  obtain ⟨i, hget⟩ := List.getElem?_of_mem hb
  have hi : i < C := by
    have := (List.getElem?_eq_some_iff.1 hget).1
    rwa [AllocateBlocks_blocks_length] at this
  rw [AllocateBlocks_getElem? H S C i hi] at hget
  cases hget
  simp only [resetPool, List.length_replicate]
  show H * C + i * S + S ≤ ((S + H) * C) % 2 ^ 32
  rw [Nat.mod_eq_of_lt hfit]
  have h1 : (i + 1) * S ≤ C * S := Nat.mul_le_mul_right S hi
  nlinarith

theorem waitLoop_keeps_up (st : State) (i : Nat) (rest : List Nat)
    (hq : st.queue = [i]) (hfree : st.waveFreeBlockCount + 1 ≠ 0) :
    waitLoop (1 :: rest) st =
      some { st with queue := [], waveFreeBlockCount := st.waveFreeBlockCount + 1,
                     sched := rest } := by
  simp [waitLoop, deviceRun, deviceDone, hq, WaveOutProc, WOM_DONE, hfree]

/-- With a device that finishes one block before each poll, the loop of
`WriteAudio` comes back, with nothing pending and the free count as it was. -/
theorem WriteAudio.loop_returns (S C : Nat) (hS : 0 < S) :
    ∀ (fuel : Nat) (st : State) (data : List Nat) (size m : Nat),
      PoolOK S C st → st.waveCurrentBlock < C → fillOffset st < S →
      size ≤ data.length → size < fuel →
      st.queue = [] → st.waveFreeBlockCount ≠ 0 →
      st.sched = List.replicate m 1 → (fillOffset st + size) / S ≤ m →
      ∃ st', WriteAudio.loop S C fuel st data size = some st' ∧
        st'.queue = [] ∧ st'.waveFreeBlockCount = st.waveFreeBlockCount ∧
        st'.sched = List.replicate (m - (fillOffset st + size) / S) 1
  | 0, _, _, _, _, _, _, _, _, hfuel, _, _, _, _ => absurd hfuel (Nat.not_lt_zero _)
  | fuel + 1, st, data, size, m, hok, hcur, hf, hlen, hfuel, hq, hfree, hsched, hm => by
    rw [WriteAudio.loop]
    by_cases hsize : size = 0
    · subst hsize
      refine ⟨st, by simp, hq, rfl, ?_⟩
      simp [Nat.div_eq_of_lt hf, hsched]
    · simp only [hsize, ↓reduceIte]
      have hcl : st.waveCurrentBlock < st.waveBlocks.length := by rw [hok.1]; exact hcur
      obtain ⟨c, hc⟩ : ∃ c, st.waveBlocks[st.waveCurrentBlock]? = some c :=
        ⟨_, List.getElem?_eq_getElem hcl⟩
      simp only [hc]
      have hfill : fillOffset st = c.dwUser := by simp [fillOffset, hc]
      rw [hfill] at hf hm ⊢
      have hfits := hok.block_fits hc
      obtain ⟨g, hg, hun⟩ := unprepare_eq st c.prepared
      rw [hun]
      obtain ⟨g1, g2, g3⟩ := hg c
      have hgc : ({ st with waveBlocks := st.waveBlocks.modify g st.waveCurrentBlock } :
          State).waveBlocks[st.waveCurrentBlock]? = some (g c) := by
        simp [List.getElem?_modify_eq, hc]
      by_cases hlt : size < S - c.dwUser
      · simp only [hlt, ↓reduceIte]
        have hcp := copyToCurrent_of_fits data size hgc
          (by rw [g1, g2]; show c.lpData + c.dwUser + size ≤ st.heap.length; omega) hlen
        have hsum : c.dwUser + size < S := by omega
        simp only [topUpCurrent, hcp]
        refine ⟨_, rfl, hq, rfl, ?_⟩
        simp [Nat.div_eq_of_lt hsum, hsched]
      · simp only [hlt, ↓reduceIte]
        have hnot : ¬ S < c.dwUser := by omega
        simp only [hnot, ↓reduceIte]
        have hrem : S - c.dwUser ≤ data.length := by omega
        have hcp := copyToCurrent_of_fits data (S - c.dwUser) hgc
          (by rw [g1, g2]; show c.lpData + c.dwUser + (S - c.dwUser) ≤ st.heap.length; omega)
          hrem
        have hdecomp : c.dwUser + size = S + (size - (S - c.dwUser)) := by omega
        have hdiv : (c.dwUser + size) / S = (size - (S - c.dwUser)) / S + 1 := by
          rw [hdecomp, Nat.add_div_left _ hS]
        have hm1 : 1 ≤ m := by
          rw [hdiv] at hm
          exact le_trans (Nat.le_add_left 1 _) hm
        obtain ⟨m', rfl⟩ : ∃ m', m = m' + 1 := ⟨m - 1, by omega⟩
        have hm' : (size - (S - c.dwUser)) / S ≤ m' := by
          rw [hdiv] at hm
          exact Nat.le_of_succ_le_succ hm
        cases h1 : submitCurrent
            { st with waveBlocks := st.waveBlocks.modify g st.waveCurrentBlock } data
            (S - c.dwUser) S with
        | none => simp [submitCurrent, writeCurrent, hcp] at h1
        | some st2 =>
          have h1' := h1
          obtain ⟨b, _, _, _, e2⟩ := submitCurrent_eq_some h1
          have hq2 : st2.queue = [st.waveCurrentBlock] := by rw [e2]; simp [hq]
          have hfree2 : st2.waveFreeBlockCount + 1 ≠ 0 := by
            rw [e2]; simpa using hfree
          have hsched2 : st2.sched = 1 :: List.replicate m' 1 := by
            rw [e2]; simpa [List.replicate_succ] using hsched
          have h2 := waitLoop_keeps_up st2 _ (List.replicate m' 1) hq2 hfree2
          rw [← hsched2] at h2
          simp only [h2]
          have hlen3 : st2.waveBlocks.length = C := by rw [e2]; simpa using hok.1
          have hC0 : C ≠ 0 := by omega
          have hnext : (st2.waveCurrentBlock + 1) % C < st2.waveBlocks.length := by
            rw [hlen3]; exact Nat.mod_lt _ (Nat.pos_of_ne_zero hC0)
          obtain ⟨st3, e3⟩ : ∃ st3 : State, st3 =
              { st2 with
                queue := [], waveFreeBlockCount := st2.waveFreeBlockCount + 1,
                sched := List.replicate m' 1 } := ⟨_, rfl⟩
          rw [← e3] at h2 ⊢
          have hnext3 : (st3.waveCurrentBlock + 1) % C < st3.waveBlocks.length := by
            rw [e3]; exact hnext
          cases h3 : nextBlock st3 C with
          | none =>
            simp [nextBlock, hC0, List.getElem?_eq_getElem hnext3] at h3
          | some st4 =>
            simp only []
            obtain ⟨q1, q2, q3, q4, q5, q6, q7, _⟩ :=
              submit_pass st g hg c hc data S C (by omega) st2 _ st4 h1' h2 h3
            obtain ⟨_, _, e4⟩ := nextBlock_eq_some h3
            have hq4 : st4.queue = [] := by rw [e4, e3]
            have hfree4 : st4.waveFreeBlockCount = st.waveFreeBlockCount := by
              rw [e4, e3, e2]; simp
            have hsched4 : st4.sched = List.replicate m' 1 := by rw [e4, e3]
            have hcur4 : st4.waveCurrentBlock < C := by
              rw [q3]; exact Nat.mod_lt _ (Nat.pos_of_ne_zero hC0)
            have hf4 : fillOffset st4 < S := by rw [q4]; exact hS
            obtain ⟨st', r1, r2, r3, r4⟩ := WriteAudio.loop_returns S C hS fuel st4
              (data.drop (S - c.dwUser)) (size - (S - c.dwUser)) m' (hok.of_frame q6) hcur4 hf4
              (by rw [List.length_drop]; omega) (by omega) hq4 (by rw [hfree4]; exact hfree)
              hsched4 (by rw [q4, Nat.zero_add]; exact hm')
            refine ⟨st', r1, r2, r3.trans hfree4, ?_⟩
            rw [r4, q4, Nat.zero_add, hdiv]
            congr 1
            exact (Nat.add_sub_add_right m' 1 _).symm

/-! ## Theorems: successive calls of `WriteAudio` -/

theorem div_add_div_mod (x y S : Nat) : x / S + (x % S + y) / S = (x + y) / S := by
  rcases Nat.eq_zero_or_pos S with h | h
  · subst h; simp
  · have hx : x + y = x % S + y + S * (x / S) := by
      have := Nat.mod_add_div x S
      omega
    rw [hx, Nat.add_mul_div_left _ _ h, Nat.add_comm]

theorem WriteAudioSeq_spec (S C : Nat) (hS : 0 < S) :
    ∀ (chunks : List (List Nat)) (st st' : State),
      WriteAudioSeq S C st chunks = some st' →
      fillOffset st < S → st.waveCurrentBlock < C →
      (∃ new : List Submission, st'.played = st.played ++ new ∧
        new.length = (fillOffset st + totalLength chunks) / S ∧
        ∀ s ∈ new, s.dwBufferLength = S ∧ s.data.length = S) ∧
      streamed st' = streamed st ++ chunks.flatten ∧
      st'.waveCurrentBlock = (st.waveCurrentBlock + (fillOffset st + totalLength chunks) / S) % C ∧
      fillOffset st' = (fillOffset st + totalLength chunks) % S ∧
      Frame st st'
  | [], st, st', h, hf, hcur => by
    simp only [WriteAudioSeq, Option.some.injEq] at h
    subst h
    refine ⟨⟨[], by simp, ?_, by simp⟩, by simp, ?_, ?_, Frame.refl _⟩
    · simp [totalLength, Nat.div_eq_of_lt hf]
    · simp [totalLength, Nat.div_eq_of_lt hf, Nat.mod_eq_of_lt hcur]
    · simp [totalLength, Nat.mod_eq_of_lt hf]
  | chunk :: rest, st, st', h, hf, hcur => by
    simp only [WriteAudioSeq] at h
    cases h1 : WriteAudio st chunk chunk.length S C with
    | none => simp [h1] at h
    | some st1 =>
      simp only [h1] at h
      obtain ⟨⟨new1, a1, a2, a3⟩, a4, a5, a6, a7⟩ :=
        WriteAudio.loop_spec S C hS _ st chunk chunk.length st1 h1 hf hcur
      have hC0 : 0 < C := Nat.lt_of_le_of_lt (Nat.zero_le _) hcur
      have hf1 : fillOffset st1 < S := by rw [a6]; exact Nat.mod_lt _ hS
      have hcur1 : st1.waveCurrentBlock < C := by rw [a5]; exact Nat.mod_lt _ hC0
      obtain ⟨⟨new2, b1, b2, b3⟩, b4, b5, b6, b7⟩ :=
        WriteAudioSeq_spec S C hS rest st1 st' h hf1 hcur1
      have htot : totalLength (chunk :: rest) = chunk.length + totalLength rest := by
        simp [totalLength]
      rw [htot, ← Nat.add_assoc]
      refine ⟨⟨new1 ++ new2, ?_, ?_, ?_⟩, ?_, ?_, ?_, a7.trans b7⟩
      · rw [b1, a1, List.append_assoc]
      · rw [List.length_append, a2, b2, a6, div_add_div_mod]
      · intro s hs
        rcases List.mem_append.1 hs with hs | hs
        · exact a3 s hs
        · exact b3 s hs
      · rw [b4, a4, List.take_length, List.flatten_cons, List.append_assoc]
      · rw [b5, a5, a6, Nat.mod_add_mod, Nat.add_assoc, div_add_div_mod]
      · rw [b6, a6, Nat.mod_add_mod]

theorem WriteAudioSeq_returns (S C : Nat) (hS : 0 < S) :
    ∀ (chunks : List (List Nat)) (st : State) (m : Nat),
      PoolOK S C st → st.waveCurrentBlock < C → fillOffset st < S →
      st.queue = [] → st.waveFreeBlockCount ≠ 0 →
      st.sched = List.replicate m 1 → (fillOffset st + totalLength chunks) / S ≤ m →
      ∃ st', WriteAudioSeq S C st chunks = some st' ∧
        st'.queue = [] ∧ st'.waveFreeBlockCount = st.waveFreeBlockCount ∧
        st'.sched = List.replicate (m - (fillOffset st + totalLength chunks) / S) 1
  | [], st, m, _, _, hf, hq, _, hsched, _ => by
    refine ⟨st, rfl, hq, rfl, ?_⟩
    simp [totalLength, Nat.div_eq_of_lt hf, hsched]
  | chunk :: rest, st, m, hok, hcur, hf, hq, hfree, hsched, hm => by
    have htot : totalLength (chunk :: rest) = chunk.length + totalLength rest := by
      simp [totalLength]
    rw [htot, ← Nat.add_assoc, ← div_add_div_mod] at hm
    obtain ⟨st1, h1, c1, c2, c3⟩ := WriteAudio.loop_returns S C hS (chunk.length + 2) st chunk
      chunk.length m hok hcur hf (Nat.le_refl _) (by omega) hq hfree hsched
      (le_trans (Nat.le_add_right _ _) hm)
    obtain ⟨_, _, a5, a6, a7⟩ :=
      WriteAudio.loop_spec S C hS _ st chunk chunk.length st1 h1 hf hcur
    have hC0 : 0 < C := Nat.lt_of_le_of_lt (Nat.zero_le _) hcur
    have hf1 : fillOffset st1 < S := by rw [a6]; exact Nat.mod_lt _ hS
    have hcur1 : st1.waveCurrentBlock < C := by rw [a5]; exact Nat.mod_lt _ hC0
    obtain ⟨st', h2, d1, d2, d3⟩ := WriteAudioSeq_returns S C hS rest st1
      (m - (fillOffset st + chunk.length) / S) (hok.of_frame a7) hcur1 hf1 c1
      (by rw [c2]; exact hfree) c3 (by rw [a6]; omega)
    refine ⟨st', ?_, d1, d2.trans c2, ?_⟩
    · simp only [WriteAudioSeq]
      have h1' : WriteAudio st chunk chunk.length S C = some st1 := h1
      rw [h1']
      exact h2
    · rw [d3, a6, htot, ← Nat.add_assoc, Nat.sub_sub,
        div_add_div_mod (fillOffset st + chunk.length) (totalLength rest) S]

theorem freshPool_fields (H S C : Nat) (sched : List Nat) :
    (freshPool H S C sched).played = [] ∧ (freshPool H S C sched).queue = [] ∧
    (freshPool H S C sched).waveFreeBlockCount = (C : Int) ∧
    (freshPool H S C sched).waveCurrentBlock = 0 ∧
    (freshPool H S C sched).sched = sched ∧
    fillOffset (freshPool H S C sched) = 0 ∧
    streamed (freshPool H S C sched) = [] := by
  refine ⟨rfl, rfl, rfl, rfl, rfl, ?_, ?_⟩
  · simp only [fillOffset, freshPool, resetPool]
    cases C with
    | zero => simp [AllocateBlocks, AllocateBlocks.loop]
    | succ n => simp [AllocateBlocks_getElem? H S (n + 1) 0 (Nat.succ_pos n)]
  · simp only [streamed, submittedBytes, pendingBytes, freshPool, resetPool, idleState]
    cases C with
    | zero => simp [AllocateBlocks, AllocateBlocks.loop]
    | succ n => simp [AllocateBlocks_getElem? H S (n + 1) 0 (Nat.succ_pos n)]

theorem flatten_uniform_window {S : Nat} :
    ∀ (L : List (List Nat)) (tail : List Nat) (i : Nat) (d : List Nat),
      (∀ l ∈ L, l.length = S) → L[i]? = some d →
      ((L.flatten ++ tail).drop (i * S)).take S = d
  | [], _, _, _, _, h => by simp at h
  | l :: L, tail, 0, d, hL, h => by
    simp only [List.getElem?_cons_zero, Option.some.injEq] at h
    subst h
    simp only [Nat.zero_mul, List.drop_zero, List.flatten_cons, List.append_assoc]
    exact List.take_left' (hL l (List.mem_cons_self _ _))
  | l :: L, tail, i + 1, d, hL, h => by
    simp only [List.getElem?_cons_succ] at h
    have hl : l.length = S := hL l (List.mem_cons_self _ _)
    have hidx : (i + 1) * S = l.length + i * S := by rw [hl]; ring
    rw [List.flatten_cons, List.append_assoc, hidx, List.drop_append]
    exact flatten_uniform_window L tail i d (fun x hx => hL x (List.mem_cons_of_mem _ hx)) h

/-- C2: from a freshly reset pool, feeding `k * S` bytes through `WriteAudio`,
in one call or split over any calls, submits exactly `k` blocks whenever the
calls come back, and once the device has finished every block still pending
`waveFreeBlockCount` equals `C` again.  With a device that finishes one block
before each poll the calls do come back. -/
theorem feed_whole_blocks (H S C k : Nat) (hS : 1 ≤ S) (hC : 1 ≤ C)
    (chunks : List (List Nat)) (htotal : totalLength chunks = k * S) :
    (∀ sched st', WriteAudioSeq S C (freshPool H S C sched) chunks = some st' →
      st'.played.length = k ∧
      (deviceRun st'.queue.length st').queue = [] ∧
      (deviceRun st'.queue.length st').waveFreeBlockCount = (C : Int)) ∧
    ((S + H) * C < 2 ^ 32 →
      ∃ st', WriteAudioSeq S C (freshPool H S C (List.replicate k 1)) chunks = some st') := by
  have hdiv : (0 + k * S) / S = k := by
    rw [Nat.zero_add, Nat.mul_div_cancel _ hS]
  constructor
  · intro sched st' h
    obtain ⟨p1, p2, p3, p4, p5, p6, _⟩ := freshPool_fields H S C sched
    obtain ⟨⟨new, r1, r2, _⟩, _, _, _, r7⟩ :=
      WriteAudioSeq_spec S C hS chunks _ st' h (by rw [p6]; exact hS) (by rw [p4]; exact hC)
    rw [p6, htotal, hdiv] at r2
    obtain ⟨_, _, _, _, _, _, g7, g8⟩ := deviceRun_fields st'.queue.length st'
    have hq : (deviceRun st'.queue.length st').queue = [] := by
      rw [g7]; simp
    refine ⟨?_, hq, ?_⟩
    · rw [r1, p1, List.nil_append, r2]
    · have hc := r7.counter
      rw [p3, p2] at hc
      rw [hq] at g8
      simp only [List.length_nil, Nat.cast_zero, add_zero] at g8 hc
      rw [g8, hc]
  · intro hfit
    obtain ⟨p1, p2, p3, p4, p5, p6, _⟩ := freshPool_fields H S C (List.replicate k 1)
    obtain ⟨st', h, _⟩ := WriteAudioSeq_returns S C hS chunks (freshPool H S C (List.replicate k 1))
      k (resetPool_ok H S C hfit _) (by rw [p4]; exact hC) (by rw [p6]; exact hS) p2
      (by rw [p3]; exact_mod_cast (Nat.pos_iff_ne_zero.1 hC)) p5
      (by rw [p6, htotal, hdiv])
    exact ⟨st', h⟩

/-- C2 at a concrete feed: eight bytes in two calls into two 4-byte blocks. -/
theorem feed_whole_blocks_witness :
    (∀ sched st', WriteAudioSeq 4 2 (freshPool 3 4 2 sched) [[1, 2, 3], [4, 5, 6, 7, 8]] =
        some st' →
      st'.played.length = 2 ∧
      (deviceRun st'.queue.length st').queue = [] ∧
      (deviceRun st'.queue.length st').waveFreeBlockCount = ((2 : Nat) : Int)) ∧
    ((4 + 3) * 2 < 2 ^ 32 →
      ∃ st', WriteAudioSeq 4 2 (freshPool 3 4 2 (List.replicate 2 1))
        [[1, 2, 3], [4, 5, 6, 7, 8]] = some st') :=
  feed_whole_blocks 3 4 2 2 (by decide) (by decide) [[1, 2, 3], [4, 5, 6, 7, 8]] (by decide)

/-- C9: after any calls of `WriteAudio` on a freshly reset pool that come back,
every submitted block has declared length `S` and holds `S` bytes; block `i`
holds bytes `i*S .. (i+1)*S` of the input; and the submitted blocks in order,
followed by the first `fillOffset` bytes of the current block, are exactly the
concatenation of the inputs. -/
theorem submitted_blocks_carry_input (H S C : Nat) (hS : 1 ≤ S) (hC : 1 ≤ C)
    (sched : List Nat) (chunks : List (List Nat)) (st' : State)
    (h : WriteAudioSeq S C (freshPool H S C sched) chunks = some st') :
    (∀ s ∈ st'.played, s.dwBufferLength = S ∧ s.data.length = S) ∧
    st'.played.length = totalLength chunks / S ∧
    (∀ i s, st'.played[i]? = some s → s.data = (chunks.flatten.drop (i * S)).take S) ∧
    (pendingBytes st').length = fillOffset st' ∧
    fillOffset st' = totalLength chunks % S ∧
    submittedBytes st' ++ pendingBytes st' = chunks.flatten := by
  obtain ⟨p1, p2, p3, p4, p5, p6, p7⟩ := freshPool_fields H S C sched
  obtain ⟨⟨new, r1, r2, r3⟩, r4, _, r6, _⟩ :=
    WriteAudioSeq_spec S C hS chunks _ st' h (by rw [p6]; exact hS) (by rw [p4]; exact hC)
  rw [p1, List.nil_append] at r1
  rw [p6, Nat.zero_add] at r2 r6
  rw [p7, List.nil_append] at r4
  have hall : ∀ s ∈ st'.played, s.dwBufferLength = S ∧ s.data.length = S := by
    rw [r1]; exact r3
  have hstream : submittedBytes st' ++ pendingBytes st' = chunks.flatten := r4
  have hsub : (submittedBytes st').length = st'.played.length * S := by
    simp only [submittedBytes, List.length_flatten, List.map_map]
    have : List.map (List.length ∘ Submission.data) st'.played =
        List.replicate st'.played.length S := by
      apply List.eq_replicate_iff.2
      refine ⟨by simp, ?_⟩
      intro x hx
      obtain ⟨s, hs, rfl⟩ := List.mem_map.1 hx
      exact (hall s hs).2
    rw [this]
    simp
  have hpend : (pendingBytes st').length = fillOffset st' := by
    have hlen := congrArg List.length hstream
    rw [List.length_append, hsub, r1, r2] at hlen
    have htl : chunks.flatten.length = totalLength chunks := by
      simp [totalLength, List.length_flatten]
    rw [htl] at hlen
    rw [r6]
    have := Nat.div_add_mod (totalLength chunks) S
    have hcomm : totalLength chunks / S * S = S * (totalLength chunks / S) := Nat.mul_comm _ _
    omega
  refine ⟨hall, by rw [r1, r2], ?_, hpend, r6, hstream⟩
  intro i s hs
  rw [← hstream]
  have hmap : (st'.played.map Submission.data)[i]? = some s.data := by
    rw [List.getElem?_map, hs]; rfl
  exact (flatten_uniform_window (st'.played.map Submission.data) (pendingBytes st') i s.data
    (by
      intro l hl
      obtain ⟨x, hx, rfl⟩ := List.mem_map.1 hl
      exact (hall x hx).2) hmap).symm

/-- C9 at a concrete run: seven bytes in two calls into two 3-byte blocks. -/
theorem submitted_blocks_carry_input_witness :
    ∃ st', WriteAudioSeq 3 2 (freshPool 2 3 2 [1, 1]) [[10, 20], [30, 40, 50, 60, 70]] =
        some st' ∧
      st'.played.length = 2 ∧
      (∀ s ∈ st'.played, s.dwBufferLength = 3 ∧ s.data.length = 3) ∧
      submittedBytes st' ++ pendingBytes st' = [10, 20, 30, 40, 50, 60, 70] := by
  obtain ⟨st', h⟩ := Option.isSome_iff_exists.1
    (by decide : (WriteAudioSeq 3 2 (freshPool 2 3 2 [1, 1])
      [[10, 20], [30, 40, 50, 60, 70]]).isSome = true)
  obtain ⟨k1, k2, _, _, _, k6⟩ := submitted_blocks_carry_input 2 3 2 (by decide) (by decide)
    [1, 1] [[10, 20], [30, 40, 50, 60, 70]] st' h
  exact ⟨st', h, k2, k1, k6⟩

/-! ## Theorems: the drain protocol -/

theorem drainLoop_fields (C : Nat) : ∀ (sched : List Nat) (st st' : State),
    drainLoop C sched st = some st' →
    st'.waveBlocks = st.waveBlocks ∧
    st'.waveCurrentBlock = st.waveCurrentBlock ∧
    st'.heap = st.heap ∧
    st'.played = st.played ∧
    st'.calls = st.calls ∧
    st'.waveFreeBlockCount + st'.queue.length = st.waveFreeBlockCount + st.queue.length ∧
    ¬ st'.waveFreeBlockCount < (C : Int)
  | [], st, st', h => by
    simp only [drainLoop] at h
    split at h
    · cases h
    · rename_i hne
      cases h
      exact ⟨rfl, rfl, rfl, rfl, rfl, rfl, hne⟩
  | k :: rest, st, st', h => by
    obtain ⟨g1, g2, g3, g4, _, g6, _, g8⟩ := deviceRun_fields k st
    simp only [drainLoop] at h
    split at h
    · obtain ⟨h1, h2, h3, h4, h5, h7, h8⟩ := drainLoop_fields C rest _ st' h
      exact ⟨h1.trans g1, h2.trans g2, h3.trans g3, h4.trans g4, h5.trans g6, h7.trans g8, h8⟩
    · rename_i hne
      cases h
      exact ⟨g1, g2, g3, g4, g6, g8, hne⟩

theorem unprepareLoop_fields : ∀ (n i : Nat) (st st' : State),
    unprepareLoop n i st = some st' → st.queue = [] →
    st'.queue = [] ∧ st'.waveFreeBlockCount = st.waveFreeBlockCount ∧
    st'.waveCurrentBlock = st.waveCurrentBlock ∧ st'.heap = st.heap ∧
    st'.played = st.played ∧ st'.calls = st.calls ∧ st'.sched = st.sched ∧
    st'.waveBlocks.length = st.waveBlocks.length ∧
    (∀ j b, i ≤ j → j < i + n → st'.waveBlocks[j]? = some b → b.prepared = false) ∧
    (∀ j, j < i → st'.waveBlocks[j]? = st.waveBlocks[j]?) ∧
    (∀ j : Nat, (st'.waveBlocks[j]?).map (fun b : WAVEHDR => (b.lpData, b.dwUser)) =
      (st.waveBlocks[j]?).map (fun b : WAVEHDR => (b.lpData, b.dwUser)))
  | 0, i, st, st', h, hq => by
    simp only [unprepareLoop, Option.some.injEq] at h
    subst h
    refine ⟨hq, rfl, rfl, rfl, rfl, rfl, rfl, rfl, ?_, fun _ _ => rfl, fun _ => rfl⟩
    intro j b h1 h2
    omega
  | n + 1, i, st, st', h, hq => by
    simp only [unprepareLoop] at h
    cases hb : st.waveBlocks[i]? with
    | none => simp [hb] at h
    | some b =>
      simp only [hb] at h
      obtain ⟨st1, hst1⟩ : ∃ st1, st1 =
          (if b.prepared then waveOutUnprepareHeader st i else st) := ⟨_, rfl⟩
      rw [← hst1] at h
      have hq1 : st1.queue = [] := by
        rw [hst1]; split <;> simp [waveOutUnprepareHeader, hq]
      have hrest : st1.waveFreeBlockCount = st.waveFreeBlockCount ∧
          st1.waveCurrentBlock = st.waveCurrentBlock ∧ st1.heap = st.heap ∧
          st1.played = st.played ∧ st1.calls = st.calls ∧ st1.sched = st.sched := by
        rw [hst1]; split <;> simp [waveOutUnprepareHeader, hq]
      have hlen1 : st1.waveBlocks.length = st.waveBlocks.length := by
        rw [hst1]; split <;> simp [waveOutUnprepareHeader, hq]
      have hi1 : ∀ b1, st1.waveBlocks[i]? = some b1 → b1.prepared = false := by
        intro b1 hb1
        rw [hst1] at hb1
        by_cases hp : b.prepared = true
        · simp only [hp, ↓reduceIte, waveOutUnprepareHeader, hq, List.not_mem_nil,
            List.getElem?_modify_eq, hb, Option.map_eq_map, Option.map_some',
            Option.some.injEq] at hb1
          rw [← hb1]
        · simp only [hp, Bool.false_eq_true, ↓reduceIte, hb, Option.some.injEq] at hb1
          rw [← hb1]
          simpa using hp
      have hother : ∀ j, j ≠ i → st1.waveBlocks[j]? = st.waveBlocks[j]? := by
        intro j hj
        rw [hst1]
        split
        · simp only [waveOutUnprepareHeader, hq, List.not_mem_nil, ↓reduceIte]
          exact List.getElem?_modify_ne _ _ (Ne.symm hj)
        · rfl
      have hsame : ∀ j : Nat, (st1.waveBlocks[j]?).map (fun b : WAVEHDR => (b.lpData, b.dwUser)) =
          (st.waveBlocks[j]?).map (fun b : WAVEHDR => (b.lpData, b.dwUser)) := by
        intro j
        by_cases hji : j = i
        · subst hji
          rw [hst1]
          split
          · simp [waveOutUnprepareHeader, hq, List.getElem?_modify_eq, hb]
          · rfl
        · rw [hother j hji]
      obtain ⟨r1, r2, r3, r4, r5, r6, r7, r8, r9, r10, r11⟩ :=
        unprepareLoop_fields n (i + 1) st1 st' h hq1
      refine ⟨r1, r2.trans hrest.1, r3.trans hrest.2.1, r4.trans hrest.2.2.1,
        r5.trans hrest.2.2.2.1, r6.trans hrest.2.2.2.2.1, r7.trans hrest.2.2.2.2.2,
        r8.trans hlen1, ?_, ?_, fun j => (r11 j).trans (hsame j)⟩
      · intro j b2 h1 h2 hb2
        by_cases hji : j = i
        · subst hji
          rw [r10 j (Nat.lt_succ_self j)] at hb2
          exact hi1 b2 hb2
        · exact r9 j b2 (by omega) (by omega) hb2
      · intro j hj
        rw [r10 j (by omega)]
        exact hother j (by omega)

/-- After the drain of a pool whose free count and pending blocks add up to
`C`, with `C` blocks: nothing is pending, the free count is `C`, and no block
is prepared. -/
theorem drain_spec (C : Nat) (st st' : State) (h : drain C st = Outcome.returned st')
    (hlen : st.waveBlocks.length = C)
    (hcount : st.waveFreeBlockCount + st.queue.length = (C : Int)) :
    st'.queue = [] ∧ st'.waveFreeBlockCount = (C : Int) ∧ st'.waveBlocks.length = C ∧
    (∀ b ∈ st'.waveBlocks, b.prepared = false) ∧
    st'.played = st.played ∧ st'.calls = st.calls ∧
    fillOffset st' = fillOffset st ∧ pendingBytes st' = pendingBytes st := by
  unfold drain at h
  cases h1 : drainLoop C st.sched st with
  | none => simp [h1] at h
  | some st1 =>
    simp only [h1] at h
    cases h2 : unprepareLoop st1.waveFreeBlockCount.toNat 0 st1 with
    | none => simp [h2] at h
    | some st2 =>
      simp only [h2, Outcome.returned.injEq] at h
      subst h
      obtain ⟨d1, d2, d3, d4, d5, d6, d7⟩ := drainLoop_fields C _ _ _ h1
      rw [hcount] at d6
      have hq1 : st1.queue = [] := by
        have : st1.queue.length = 0 := by omega
        exact List.length_eq_zero.1 this
      have hfree1 : st1.waveFreeBlockCount = (C : Int) := by
        rw [hq1] at d6; simpa using d6
      obtain ⟨u1, u2, u3, u4, u5, u6, _, u8, u9, _, u11⟩ :=
        unprepareLoop_fields _ _ _ _ h2 hq1
      rw [hfree1, Int.toNat_ofNat] at u9
      have hlen2 : st2.waveBlocks.length = C := by rw [u8, d1, hlen]
      have hcurr := u11 st2.waveCurrentBlock
      rw [d1] at hcurr
      rw [u3, d2] at hcurr
      refine ⟨u1, u2.trans hfree1, hlen2, ?_, u5.trans d4, u6.trans d5, ?_, ?_⟩
      · intro b hb
        obtain ⟨j, hj⟩ := List.getElem?_of_mem hb
        have hjlt : j < C := by
          rw [← hlen2]; exact (List.getElem?_eq_some_iff.1 hj).1
        exact u9 j b (Nat.zero_le _) (by omega) hj
      · simp only [fillOffset, u3, d2]
        cases hx : st2.waveBlocks[st.waveCurrentBlock]? <;>
          cases hy : st.waveBlocks[st.waveCurrentBlock]? <;>
          simp_all
      · simp only [pendingBytes, u3, d2, u4, d3]
        cases hx : st2.waveBlocks[st.waveCurrentBlock]? <;>
          cases hy : st.waveBlocks[st.waveCurrentBlock]? <;>
          simp_all

/-! ## Theorems: the chunks of the whole-file driver -/

theorem paddedChunks_spec : ∀ (fuel : Nat) (src : List Nat), src.length < fuel →
    (paddedChunks 1024 fuel src).length = (src.length + 1023) / 1024 ∧
    (∀ c ∈ paddedChunks 1024 fuel src, c.length = 1024) ∧
    (paddedChunks 1024 fuel src).flatten =
      src ++ List.replicate (1024 * ((src.length + 1023) / 1024) - src.length) 0
  | 0, _, h => absurd h (Nat.not_lt_zero _)
  | fuel + 1, src, h => by
    simp only [paddedChunks]
    by_cases h0 : (src.take 1024).length = 0
    · have hsrc : src.length = 0 := by
        rw [List.length_take] at h0; omega
      have hnil : src = [] := List.length_eq_zero.1 hsrc
      subst hnil
      simp
    · simp only [h0, ↓reduceIte]
      have hpos : 0 < src.length := by
        rw [List.length_take] at h0; omega
      have hdrop : (src.drop 1024).length = src.length - 1024 := List.length_drop _ _
      obtain ⟨ih1, ih2, ih3⟩ := paddedChunks_spec fuel (src.drop 1024) (by omega)
      refine ⟨?_, ?_, ?_⟩
      · rw [List.length_cons, ih1, hdrop]
        omega
      · intro c hc
        rcases List.mem_cons.1 hc with rfl | hc
        · rw [List.length_append, List.length_replicate, List.length_take]
          omega
        · exact ih2 c hc
      · rw [List.flatten_cons, ih3, hdrop]
        by_cases hfull : 1024 ≤ src.length
        · have htake : (src.take 1024).length = 1024 := by
            rw [List.length_take]; omega
          rw [htake, Nat.sub_self, List.replicate_zero, List.append_nil, ← List.append_assoc,
            List.take_append_drop]
          have e2 : 1024 * ((src.length - 1024 + 1023) / 1024) - (src.length - 1024) =
              1024 * ((src.length + 1023) / 1024) - src.length := by omega
          rw [e2]
        · have hshort : src.length < 1024 := by omega
          have htake : src.take 1024 = src := List.take_of_length_le (by omega)
          have hdropnil : src.drop 1024 = [] := List.drop_of_length_le (by omega)
          rw [htake, hdropnil]
          have e1 : 1024 * ((src.length - 1024 + 1023) / 1024) - (src.length - 1024) = 0 := by
            omega
          have e3 : 1024 * ((src.length + 1023) / 1024) - src.length = 1024 - src.length := by
            omega
          rw [e1, e3]
          simp only [List.replicate_zero, List.append_nil, List.nil_append]

theorem paddedChunks_total (fuel : Nat) (src : List Nat) (h : src.length < fuel) :
    totalLength (paddedChunks 1024 fuel src) = 1024 * ((src.length + 1023) / 1024) := by
  obtain ⟨_, _, h3⟩ := paddedChunks_spec fuel src h
  have := congrArg List.length h3
  rw [List.length_append, List.length_replicate, List.length_flatten] at this
  unfold totalLength
  omega

theorem drop_read_eq (file : List Nat) (pos n : Nat) :
    file.drop (pos + (ReadFile file pos n).length) = (file.drop pos).drop n := by
  rw [List.drop_drop]
  simp only [ReadFile, List.length_take, List.length_drop]
  by_cases h : n ≤ file.length - pos
  · rw [Nat.min_eq_left h]
  · rw [Nat.min_eq_right (by omega)]
    rw [List.drop_of_length_le (by omega), List.drop_of_length_le (by omega)]

/-- The playback loop of `PlayWavFile` hands `WriteAudio` the padded
1024-byte chunks of what the file holds from the read position on. -/
theorem PlayWavFile.readLoop_eq_seq (file : List Nat) :
    ∀ (fuel pos : Nat) (buffer : List Nat) (st : State),
      file.length - pos < fuel → buffer.length = 1024 →
      PlayWavFile.readLoop file fuel pos buffer st =
        WriteAudioSeq BLOCK_SIZE BLOCK_COUNT st (paddedChunks 1024 fuel (file.drop pos))
  | 0, _, _, _, h, _ => absurd h (Nat.not_lt_zero _)
  | fuel + 1, pos, buffer, st, h, hbuf => by
    simp only [PlayWavFile.readLoop, paddedChunks]
    have hread : ReadFile file pos 1024 = (file.drop pos).take 1024 := rfl
    rw [← hread]
    by_cases h0 : (ReadFile file pos 1024).length = 0
    · simp [h0, WriteAudioSeq]
    · simp only [h0, ↓reduceIte]
      have hle : (ReadFile file pos 1024).length ≤ 1024 := by
        rw [hread, List.length_take]; omega
      have hchunk : (if (ReadFile file pos 1024).length < 1024 then
            (store buffer (ReadFile file pos 1024)).take (ReadFile file pos 1024).length ++
              List.replicate (1024 - (ReadFile file pos 1024).length) 0
          else store buffer (ReadFile file pos 1024)) =
          ReadFile file pos 1024 ++
            List.replicate (1024 - (ReadFile file pos 1024).length) 0 := by
        split
        · simp [store]
        · rename_i hnot
          have hfull : (ReadFile file pos 1024).length = 1024 := by omega
          simp only [store, hfull, Nat.sub_self, List.replicate_zero, List.append_nil]
          rw [List.drop_of_length_le (by omega), List.append_nil]
      rw [hchunk]
      have hlen : (ReadFile file pos 1024 ++
          List.replicate (1024 - (ReadFile file pos 1024).length) 0).length = 1024 := by
        rw [List.length_append, List.length_replicate]; omega
      simp only [WriteAudioSeq, hlen]
      cases hw : WriteAudio st (ReadFile file pos 1024 ++
          List.replicate (1024 - (ReadFile file pos 1024).length) 0) 1024 BLOCK_SIZE
          BLOCK_COUNT with
      | none => rfl
      | some st1 =>
        simp only []
        have hfile : (ReadFile file pos 1024).length ≤ file.length - pos := by
          rw [hread, List.length_take, List.length_drop]; omega
        rw [PlayWavFile.readLoop_eq_seq file fuel _ _ st1 (by omega) hlen, drop_read_eq]

/-! ## Theorems: the whole-file driver -/

theorem uninit_length (env : Env) (n : Nat) : (uninit env n).length = n := by
  simp [uninit]

theorem resetPool_fields (H S C : Nat) (st : State) :
    (resetPool H S C st).played = st.played ∧ (resetPool H S C st).queue = st.queue ∧
    (resetPool H S C st).waveFreeBlockCount = (C : Int) ∧
    (resetPool H S C st).waveCurrentBlock = 0 ∧
    (resetPool H S C st).sched = st.sched ∧
    (resetPool H S C st).waveBlocks.length = C ∧
    fillOffset (resetPool H S C st) = 0 ∧
    pendingBytes (resetPool H S C st) = [] := by
  refine ⟨rfl, rfl, rfl, rfl, rfl, AllocateBlocks_blocks_length H S C, ?_, ?_⟩
  · simp only [fillOffset, resetPool]
    cases C with
    | zero => simp [AllocateBlocks, AllocateBlocks.loop]
    | succ n => simp [AllocateBlocks_getElem? H S (n + 1) 0 (Nat.succ_pos n)]
  · simp only [pendingBytes, resetPool]
    cases C with
    | zero => simp [AllocateBlocks, AllocateBlocks.loop]
    | succ n => simp [AllocateBlocks_getElem? H S (n + 1) 0 (Nat.succ_pos n)]

theorem openPool_returned {env : Env} {S C : Nat} {st st2 : State}
    (h : openPool env S C st = Outcome.returned st2) :
    st2 = logCall (logCall (resetPool env.H S C st) Call.InitializeCriticalSection)
      Call.waveOutOpen := by
  unfold openPool at h
  split at h
  · cases h
  · split at h
    · cases h
    · cases h; rfl

theorem openPool_of_ok {env : Env} (S C : Nat) (st : State) (hheap : env.heapOk = true)
    (hwave : env.waveOutOk = true) :
    openPool env S C st = Outcome.returned
      (logCall (logCall (resetPool env.H S C st) Call.InitializeCriticalSection)
        Call.waveOutOpen) := by
  simp [openPool, hheap, hwave]

theorem submittedBytes_length (S : Nat) (st : State)
    (hall : ∀ s ∈ st.played, s.data.length = S) :
    (submittedBytes st).length = st.played.length * S := by
  simp only [submittedBytes, List.length_flatten, List.map_map]
  have : List.map (List.length ∘ Submission.data) st.played =
      List.replicate st.played.length S := by
    apply List.eq_replicate_iff.2
    refine ⟨by simp, ?_⟩
    intro x hx
    obtain ⟨s, hs, rfl⟩ := List.mem_map.1 hx
    exact hall s hs
  rw [this]
  simp

theorem unprepareLoop_returns : ∀ (n i : Nat) (st : State),
    i + n ≤ st.waveBlocks.length → ∃ st', unprepareLoop n i st = some st'
  | 0, _, st, _ => ⟨st, rfl⟩
  | n + 1, i, st, h => by
    have hi : i < st.waveBlocks.length := by omega
    simp only [unprepareLoop, List.getElem?_eq_getElem hi]
    apply unprepareLoop_returns n (i + 1)
    split
    · unfold waveOutUnprepareHeader
      split
      · omega
      · simp only [List.length_modify]; omega
    · omega

theorem teardown_fields (st : State) :
    (teardown st).played = st.played ∧ (teardown st).queue = st.queue ∧
    (teardown st).waveFreeBlockCount = st.waveFreeBlockCount ∧
    (teardown st).calls = st.calls ++ [Call.DeleteCriticalSection, Call.FreeBlocks,
      Call.waveOutClose, Call.CloseHandle] := by
  simp [teardown, FreeBlocks, logCall]

theorem openedState_fields (env : Env) (S C : Nat) (st : State) :
    (openedState env S C st).played = st.played ∧
    (openedState env S C st).queue = st.queue ∧
    (openedState env S C st).waveFreeBlockCount = (C : Int) ∧
    (openedState env S C st).waveCurrentBlock = 0 ∧
    (openedState env S C st).sched = st.sched ∧
    (openedState env S C st).waveBlocks.length = C ∧
    fillOffset (openedState env S C st) = 0 ∧
    pendingBytes (openedState env S C st) = [] ∧
    (openedState env S C st).calls = st.calls ++
      [Call.AllocateBlocks, Call.InitializeCriticalSection, Call.waveOutOpen] := by
  obtain ⟨h1, h2, h3, h4, h5, h6, h7, h8⟩ := resetPool_fields env.H S C st
  refine ⟨h1, h2, h3, h4, h5, h6, h7, h8, ?_⟩
  simp [openedState, logCall, resetPool]

theorem openedState_ok (env : Env) (S C : Nat) (st : State)
    (hfit : (S + env.H) * C < 2 ^ 32) : PoolOK S C (openedState env S C st) :=
  resetPool_ok env.H S C hfit st

theorem PlayWavFile_drained_eq (env : Env) (file : List Nat) (hfile : env.file = some file)
    (hheap : env.heapOk = true) (hwave : env.waveOutOk = true) :
    PlayWavFile.drained env =
      match PlayWavFile.readLoop file (file.length + 1) (ReadFile file 0 36).length
          (uninit env 1024)
          (openedState env BLOCK_SIZE BLOCK_COUNT (logCall (idleState env.sched) Call.CreateFile))
      with
      | none => Outcome.stuck
      | some st3 => drain BLOCK_COUNT st3 := by
  simp only [PlayWavFile.drained, hfile, openPool_of_ok _ _ _ hheap hwave]
  rfl

theorem drop_header (file : List Nat) :
    file.drop (ReadFile file 0 36).length = file.drop 36 := by
  simp only [ReadFile, List.drop_zero, List.length_take]
  by_cases h : 36 ≤ file.length
  · rw [Nat.min_eq_left h]
  · rw [Nat.min_eq_right (by omega), List.drop_of_length_le (by omega),
      List.drop_of_length_le (by omega)]

theorem append_eq_take_drop {x y z : List Nat} (h : x ++ y = z) :
    x = z.take x.length ∧ y = z.drop x.length := by
  subst h
  simp

theorem idleState_fields (sched : List Nat) (c : Call) :
    (logCall (idleState sched) c).played = [] ∧ (logCall (idleState sched) c).queue = [] ∧
    (logCall (idleState sched) c).sched = sched ∧
    (logCall (idleState sched) c).calls = [c] := by
  simp [logCall, idleState]

/-- What `PlayWavFile` has done when it reaches `DeleteCriticalSection`. -/
theorem PlayWavFile_drained_spec (env : Env) (file : List Nat) (hfile : env.file = some file)
    (hheap : env.heapOk = true) (hwave : env.waveOutOk = true) (st : State)
    (h : PlayWavFile.drained env = Outcome.returned st) :
    st.played.length = 1024 * (((file.drop 36).length + 1023) / 1024) / 8192 ∧
    (∀ s ∈ st.played, s.dwBufferLength = 8192 ∧ s.data.length = 8192) ∧
    submittedBytes st ++ pendingBytes st =
      (paddedChunks 1024 (file.length + 1) (file.drop 36)).flatten ∧
    fillOffset st = 1024 * (((file.drop 36).length + 1023) / 1024) % 8192 ∧
    st.queue = [] ∧ st.waveFreeBlockCount = 20 ∧ st.waveBlocks.length = 20 ∧
    (∀ b ∈ st.waveBlocks, b.prepared = false) ∧
    st.calls = [Call.CreateFile, Call.AllocateBlocks, Call.InitializeCriticalSection,
      Call.waveOutOpen] := by
  rw [PlayWavFile_drained_eq env file hfile hheap hwave] at h
  obtain ⟨st2, hst2⟩ : ∃ st2, st2 = openedState env BLOCK_SIZE BLOCK_COUNT
      (logCall (idleState env.sched) Call.CreateFile) := ⟨_, rfl⟩
  rw [← hst2] at h
  obtain ⟨o1, o2, o3, o4, _, o6, o7, o8, o9⟩ := openedState_fields env BLOCK_SIZE BLOCK_COUNT
    (logCall (idleState env.sched) Call.CreateFile)
  obtain ⟨i1, i2, _, i4⟩ := idleState_fields env.sched Call.CreateFile
  rw [← hst2] at o1 o2 o3 o4 o6 o7 o8 o9
  rw [i1] at o1
  rw [i2] at o2
  rw [i4] at o9
  have hsrclen : (file.drop 36).length < file.length + 1 := by
    rw [List.length_drop]; omega
  rw [PlayWavFile.readLoop_eq_seq file _ _ _ st2 (by omega) (uninit_length env 1024),
    drop_header] at h
  cases h3 : WriteAudioSeq BLOCK_SIZE BLOCK_COUNT st2
      (paddedChunks 1024 (file.length + 1) (file.drop 36)) with
  | none => simp [h3] at h
  | some st3 =>
    simp only [h3] at h
    obtain ⟨⟨new, r1, r2, r3⟩, r4, _, r6, r7⟩ :=
      WriteAudioSeq_spec BLOCK_SIZE BLOCK_COUNT (by decide) _ st2 st3 h3
        (by rw [o7]; decide) (by rw [o4]; decide)
    rw [o7, Nat.zero_add, paddedChunks_total _ _ hsrclen] at r2 r6
    rw [o1, List.nil_append] at r1
    have hstream2 : streamed st2 = [] := by
      simp [streamed, submittedBytes, o1, o8]
    rw [hstream2, List.nil_append] at r4
    have hlen3 : st3.waveBlocks.length = BLOCK_COUNT := r7.length_eq.trans o6
    have hcount3 : st3.waveFreeBlockCount + st3.queue.length = (BLOCK_COUNT : Int) := by
      rw [r7.counter, o3, o2]; simp
    obtain ⟨d1, d2, d3, d4, d5, d6, d7, d8⟩ := drain_spec BLOCK_COUNT st3 st h hlen3 hcount3
    refine ⟨?_, ?_, ?_, ?_, d1, d2, d3, d4, ?_⟩
    · rw [d5, r1, r2]; rfl
    · rw [d5, r1]; exact r3
    · have : submittedBytes st = submittedBytes st3 := by simp [submittedBytes, d5]
      rw [this, d8]
      exact r4
    · rw [d7, r6]; rfl
    · rw [d6, r7.calls, o9]; rfl

theorem PlayWavFile_drained_returns (env : Env) (file : List Nat)
    (hfile : env.file = some file) (hheap : env.heapOk = true) (hwave : env.waveOutOk = true)
    (hfit : (8192 + env.H) * 20 < 2 ^ 32)
    (hsched : env.sched =
      List.replicate (1024 * (((file.drop 36).length + 1023) / 1024) / 8192) 1) :
    ∃ st, PlayWavFile.drained env = Outcome.returned st := by
  rw [PlayWavFile_drained_eq env file hfile hheap hwave]
  obtain ⟨st2, hst2⟩ : ∃ st2, st2 = openedState env BLOCK_SIZE BLOCK_COUNT
      (logCall (idleState env.sched) Call.CreateFile) := ⟨_, rfl⟩
  rw [← hst2]
  obtain ⟨o1, o2, o3, o4, o5, o6, o7, o8, o9⟩ := openedState_fields env BLOCK_SIZE BLOCK_COUNT
    (logCall (idleState env.sched) Call.CreateFile)
  obtain ⟨i1, i2, i3, i4⟩ := idleState_fields env.sched Call.CreateFile
  rw [← hst2] at o1 o2 o3 o4 o5 o6 o7 o8 o9
  rw [i2] at o2
  rw [i3, hsched] at o5
  have hok : PoolOK BLOCK_SIZE BLOCK_COUNT st2 := by
    rw [hst2]; exact openedState_ok env BLOCK_SIZE BLOCK_COUNT _ hfit
  have hsrclen : (file.drop 36).length < file.length + 1 := by
    rw [List.length_drop]; omega
  rw [PlayWavFile.readLoop_eq_seq file _ _ _ st2 (by omega) (uninit_length env 1024),
    drop_header]
  obtain ⟨st3, h3, q3, f3, s3⟩ := WriteAudioSeq_returns BLOCK_SIZE BLOCK_COUNT (by decide)
    (paddedChunks 1024 (file.length + 1) (file.drop 36)) st2 _ hok (by rw [o4]; decide)
    (by rw [o7]; decide) o2 (by rw [o3]; decide) o5
    (by rw [o7, Nat.zero_add, paddedChunks_total _ _ hsrclen]; exact Nat.le_refl _)
  obtain ⟨_, _, _, _, r7⟩ :=
    WriteAudioSeq_spec BLOCK_SIZE BLOCK_COUNT (by decide) _ st2 st3 h3
      (by rw [o7]; decide) (by rw [o4]; decide)
  simp only [h3]
  have hB : BLOCK_SIZE = 8192 := rfl
  rw [o7, Nat.zero_add, paddedChunks_total _ _ hsrclen, hB, Nat.sub_self] at s3
  have hfree3 : st3.waveFreeBlockCount = (BLOCK_COUNT : Int) := f3.trans o3
  have hlen3 : st3.waveBlocks.length = BLOCK_COUNT := r7.length_eq.trans o6
  have hdl : drainLoop BLOCK_COUNT st3.sched st3 = some { st3 with sched := [] } := by
    rw [s3]
    simp [drainLoop, hfree3]
  obtain ⟨st5, h5⟩ := unprepareLoop_returns BLOCK_COUNT 0 { st3 with sched := [] }
    (by simp [hlen3])
  refine ⟨st5, ?_⟩
  simp only [drain, hdl]
  have hn : ({ st3 with sched := [] } : State).waveFreeBlockCount.toNat = BLOCK_COUNT := by
    show st3.waveFreeBlockCount.toNat = BLOCK_COUNT
    rw [hfree3]; rfl
  rw [hn, h5]

theorem PlayWavFile_returned {env : Env} {st : State}
    (h : PlayWavFile env = Outcome.returned st) :
    ∃ st0, PlayWavFile.drained env = Outcome.returned st0 ∧ st = teardown st0 := by
  unfold PlayWavFile at h
  cases hd : PlayWavFile.drained env with
  | returned st0 =>
    simp only [hd, Outcome.returned.injEq] at h
    exact ⟨st0, rfl, h.symm⟩
  | exited st0 => simp [hd] at h
  | stuck => simp [hd] at h

/-- C3: when the file opens, the pool is allocated and the device opens,
`PlayWavFile` hands `WriteAudio` the `ceil(L / 1024)` chunks of 1024 bytes made
of the `L` bytes that follow the 36-byte header and of zeros up to
`P = 1024 * ceil(L / 1024)`; when it reaches the end of the drain it has
submitted `P / 8192` blocks of 8192 bytes, the first `8192 * (P / 8192)` bytes
of that stream, the other `P % 8192` bytes are still in the current block, no
block is pending and `waveFreeBlockCount` is 20.  For `L = 3 * 8192` this is 3
blocks.  With a device that finishes one block before each poll the call
returns. -/
theorem PlayWavFile_whole_file (env : Env) (file : List Nat) (hfile : env.file = some file)
    (hheap : env.heapOk = true) (hwave : env.waveOutOk = true) :
    ∃ chunks : List (List Nat),
      chunks.length = ((file.drop 36).length + 1023) / 1024 ∧
      (∀ c ∈ chunks, c.length = 1024) ∧
      chunks.flatten = file.drop 36 ++
        List.replicate
          (1024 * (((file.drop 36).length + 1023) / 1024) - (file.drop 36).length) 0 ∧
      (∀ st, PlayWavFile.readLoop file (file.length + 1) (ReadFile file 0 36).length
          (uninit env 1024) st = WriteAudioSeq BLOCK_SIZE BLOCK_COUNT st chunks) ∧
      (∀ st, PlayWavFile.drained env = Outcome.returned st →
        st.played.length = 1024 * (((file.drop 36).length + 1023) / 1024) / 8192 ∧
        (∀ s ∈ st.played, s.dwBufferLength = 8192 ∧ s.data.length = 8192) ∧
        submittedBytes st =
          chunks.flatten.take (8192 * (1024 * (((file.drop 36).length + 1023) / 1024) / 8192)) ∧
        pendingBytes st =
          chunks.flatten.drop (8192 * (1024 * (((file.drop 36).length + 1023) / 1024) / 8192)) ∧
        (pendingBytes st).length = 1024 * (((file.drop 36).length + 1023) / 1024) % 8192 ∧
        st.queue = [] ∧ st.waveFreeBlockCount = 20) ∧
      (∀ st, PlayWavFile env = Outcome.returned st →
        st.played.length = 1024 * (((file.drop 36).length + 1023) / 1024) / 8192 ∧
        (∀ s ∈ st.played, s.dwBufferLength = 8192 ∧ s.data.length = 8192) ∧
        submittedBytes st =
          chunks.flatten.take (8192 * (1024 * (((file.drop 36).length + 1023) / 1024) / 8192)) ∧
        st.queue = [] ∧ st.waveFreeBlockCount = 20) ∧
      ((file.drop 36).length = 3 * 8192 → ∀ st, PlayWavFile env = Outcome.returned st →
        st.played.length = 3 ∧ st.queue = [] ∧ st.waveFreeBlockCount = 20) ∧
      ((8192 + env.H) * 20 < 2 ^ 32 →
        env.sched =
          List.replicate (1024 * (((file.drop 36).length + 1023) / 1024) / 8192) 1 →
        ∃ st, PlayWavFile env = Outcome.returned st) := by
  have hsrclen : (file.drop 36).length < file.length + 1 := by
    rw [List.length_drop]; omega
  obtain ⟨c1, c2, c3⟩ := paddedChunks_spec (file.length + 1) (file.drop 36) hsrclen
  have hflatlen : (paddedChunks 1024 (file.length + 1) (file.drop 36)).flatten.length =
      1024 * (((file.drop 36).length + 1023) / 1024) := by
    rw [c3, List.length_append, List.length_replicate]; omega
  have hdrained : ∀ st, PlayWavFile.drained env = Outcome.returned st →
      st.played.length = 1024 * (((file.drop 36).length + 1023) / 1024) / 8192 ∧
      (∀ s ∈ st.played, s.dwBufferLength = 8192 ∧ s.data.length = 8192) ∧
      submittedBytes st = (paddedChunks 1024 (file.length + 1) (file.drop 36)).flatten.take
        (8192 * (1024 * (((file.drop 36).length + 1023) / 1024) / 8192)) ∧
      pendingBytes st = (paddedChunks 1024 (file.length + 1) (file.drop 36)).flatten.drop
        (8192 * (1024 * (((file.drop 36).length + 1023) / 1024) / 8192)) ∧
      (pendingBytes st).length = 1024 * (((file.drop 36).length + 1023) / 1024) % 8192 ∧
      st.queue = [] ∧ st.waveFreeBlockCount = 20 := by
    intro st h
    obtain ⟨p1, p2, p3, _, p5, p6, _, _, _⟩ :=
      PlayWavFile_drained_spec env file hfile hheap hwave st h
    have hsub := submittedBytes_length 8192 st (fun s hs => (p2 s hs).2)
    rw [p1, Nat.mul_comm] at hsub
    obtain ⟨e1, e2⟩ := append_eq_take_drop p3
    rw [hsub] at e1 e2
    refine ⟨p1, p2, e1, e2, ?_, p5, p6⟩
    rw [e2, List.length_drop, hflatlen]
    omega
  refine ⟨paddedChunks 1024 (file.length + 1) (file.drop 36), c1, c2, c3, ?_, hdrained, ?_, ?_,
    ?_⟩
  · intro st
    rw [PlayWavFile.readLoop_eq_seq file _ _ _ st (by omega) (uninit_length env 1024),
      drop_header]
  · intro st h
    obtain ⟨st0, h0, rfl⟩ := PlayWavFile_returned h
    obtain ⟨t1, t2, t3, _⟩ := teardown_fields st0
    obtain ⟨d1, d2, d3, _, _, d6, d7⟩ := hdrained st0 h0
    refine ⟨by rw [t1]; exact d1, by rw [t1]; exact d2, ?_, by rw [t2]; exact d6,
      by rw [t3]; exact d7⟩
    have : submittedBytes (teardown st0) = submittedBytes st0 := by
      simp [submittedBytes, t1]
    rw [this]; exact d3
  · intro hL st h
    obtain ⟨st0, h0, rfl⟩ := PlayWavFile_returned h
    obtain ⟨t1, t2, t3, _⟩ := teardown_fields st0
    obtain ⟨d1, _, _, _, _, d6, d7⟩ := hdrained st0 h0
    rw [hL] at d1
    exact ⟨by rw [t1]; exact d1, by rw [t2]; exact d6, by rw [t3]; exact d7⟩
  · intro hfit hsched
    obtain ⟨st0, h0⟩ := PlayWavFile_drained_returns env file hfile hheap hwave hfit hsched
    exact ⟨teardown st0, by simp [PlayWavFile, h0]⟩

/-- C3 at a concrete file: five payload bytes after the header and the chunk
header give one padded chunk and no submitted block. -/
theorem PlayWavFile_whole_file_witness :
    ∃ chunks : List (List Nat),
      chunks.length = 1 ∧ (∀ c ∈ chunks, c.length = 1024) ∧
      (∀ st, PlayWavFile (envOf (wavFile 1 176400 [1, 2, 3, 4, 5]) []) = Outcome.returned st →
        st.played.length = 0 ∧ st.queue = [] ∧ st.waveFreeBlockCount = 20) ∧
      ∃ st, PlayWavFile (envOf (wavFile 1 176400 [1, 2, 3, 4, 5]) []) = Outcome.returned st := by
  obtain ⟨chunks, k1, k2, _, _, _, k6, _, k8⟩ :=
    PlayWavFile_whole_file (envOf (wavFile 1 176400 [1, 2, 3, 4, 5]) [])
      (wavFile 1 176400 [1, 2, 3, 4, 5]) rfl rfl rfl
  have hL : ((wavFile 1 176400 [1, 2, 3, 4, 5]).drop 36).length = 13 := by decide
  rw [hL] at k1 k6 k8
  refine ⟨chunks, k1, k2, ?_, k8 (by decide) rfl⟩
  intro st h
  obtain ⟨a, _, _, b, c⟩ := k6 st h
  exact ⟨a, b, c⟩

/-! ## Theorems: the single-frame driver -/

/-- C5: when the header read from the file carries a format code other than 1,
`PlayFrame` ends in `ExitProcess` having called nothing but `CreateFile`:
`AllocateBlocks`, `InitializeCriticalSection` and `waveOutOpen` are not
called, there is no pool, and `waveFreeBlockCount` is not set. -/
theorem PlayFrame_rejects_non_PCM (env : Env) (file : List Nat) (frameTime timeFrom : double)
    (hfile : env.file = some file) (hfmt : wAudioFormatCode (readHeader env file) ≠ 1) :
    ∃ st, PlayFrame env frameTime timeFrom = Outcome.exited st ∧
      st.calls = [Call.CreateFile, Call.ExitProcess] ∧
      Call.AllocateBlocks ∉ st.calls ∧ Call.InitializeCriticalSection ∉ st.calls ∧
      Call.waveOutOpen ∉ st.calls ∧
      st.waveBlocks = [] ∧ st.heap = [] ∧ st.waveFreeBlockCount = 0 ∧
      st.queue = [] ∧ st.played = [] := by
  refine ⟨logCall (logCall (idleState env.sched) Call.CreateFile) Call.ExitProcess, ?_, ?_⟩
  · simp [PlayFrame, PlayFrame.drained, hfile, hfmt]
  · simp [logCall, idleState]

/-- C5 at a concrete file: format code 3 (IEEE float). -/
theorem PlayFrame_rejects_non_PCM_witness :
    ∃ st, PlayFrame (envOf (wavFile 3 176400 [1, 2, 3, 4]) []) { m := 1, e := 0 }
        { m := 2, e := 0 } = Outcome.exited st ∧
      st.calls = [Call.CreateFile, Call.ExitProcess] ∧
      Call.AllocateBlocks ∉ st.calls ∧ Call.InitializeCriticalSection ∉ st.calls ∧
      Call.waveOutOpen ∉ st.calls ∧
      st.waveBlocks = [] ∧ st.heap = [] ∧ st.waveFreeBlockCount = 0 ∧
      st.queue = [] ∧ st.played = [] :=
  PlayFrame_rejects_non_PCM (envOf (wavFile 3 176400 [1, 2, 3, 4]) [])
    (wavFile 3 176400 [1, 2, 3, 4]) { m := 1, e := 0 } { m := 2, e := 0 } rfl (by decide)

theorem PlayFrame.readLoop_frame (file : List Nat) (bufferSize B : Nat)
    (hB : 0 < bufferSize → 0 < B) :
    ∀ (fuel pos : Nat) (buffer : List Nat) (total : Nat) (st st' : State),
      PlayFrame.readLoop file bufferSize B fuel pos buffer total st = some st' →
      fillOffset st < B ∨ bufferSize = 0 → st.waveCurrentBlock < 1 →
      Frame st st'
  | 0, _, _, _, _, _, h, _, _ => by simp [PlayFrame.readLoop] at h
  | fuel + 1, pos, buffer, total, st, st', h, hf, hcur => by
    simp only [PlayFrame.readLoop] at h
    by_cases h0 : (ReadFile file pos bufferSize).length = 0
    · simp only [h0, ↓reduceIte, Option.some.injEq] at h
      subst h
      exact Frame.refl _
    · simp only [h0, ↓reduceIte] at h
      have hbs : 0 < bufferSize := by
        rcases Nat.eq_zero_or_pos bufferSize with hz | hz
        · exfalso
          apply h0
          simp [ReadFile, hz]
        · exact hz
      have hf' : fillOffset st < B := by
        rcases hf with hf | hf
        · exact hf
        · omega
      split at h
      · cases h
      · rename_i st1 hw
        obtain ⟨_, _, r5, r6, r7⟩ :=
          WriteAudio.loop_spec B 1 (hB hbs) _ st _ bufferSize st1 hw hf' hcur
        split at h
        · cases h
          exact r7
        · refine r7.trans (PlayFrame.readLoop_frame file bufferSize B hB fuel _ _ _ st1 st' h
            (Or.inl ?_) ?_)
          · rw [r6]; exact Nat.mod_lt _ (hB hbs)
          · rw [r5]; exact Nat.mod_lt _ Nat.one_pos

theorem tdiv_pos_imp (a : Int) (h : ¬ Int.tdiv a 8 < 0) (hpos : 0 < (Int.tdiv a 8).toNat) :
    8 ≤ a := by
  by_contra hlt
  have hlt' : a < 8 := by omega
  rcases lt_or_ge a 0 with hneg | hnn
  · have h1 : 0 ≤ (-a).tdiv 8 := Int.tdiv_nonneg (by omega) (by decide)
    have h2 : a.tdiv 8 = -((-a).tdiv 8) := by
      rw [Int.neg_tdiv, Int.neg_neg]
    omega
  · have := Int.tdiv_eq_zero_of_lt hnn hlt'
    rw [this] at hpos
    simp at hpos

theorem toInt32_range {d : double} {v : Int} (h : toInt32 d = some v) :
    -(2 ^ 31) ≤ v ∧ v < 2 ^ 31 := by
  obtain ⟨v0, hv0⟩ : ∃ v0, v0 =
      (if 0 ≤ d.e then d.m * 2 ^ d.e.toNat else Int.tdiv d.m (2 ^ (-d.e).toNat)) := ⟨_, rfl⟩
  have hdef : toInt32 d = if -(2 ^ 31) ≤ v0 ∧ v0 < 2 ^ 31 then some v0 else none := by
    rw [hv0]; rfl
  rw [hdef] at h
  by_cases hr : -(2 ^ 31) ≤ v0 ∧ v0 < 2 ^ 31
  · rw [if_pos hr] at h
    cases h
    exact hr
  · rw [if_neg hr] at h
    cases h

/-- What `PlayFrame` has done when it reaches `DeleteCriticalSection`. -/
theorem PlayFrame_drained_spec (env : Env) (frameTime timeFrom : double) (st : State)
    (h : PlayFrame.drained env frameTime timeFrom = Outcome.returned st) :
    st.queue = [] ∧ st.waveFreeBlockCount = 1 ∧ st.waveBlocks.length = 1 ∧
    (∀ b ∈ st.waveBlocks, b.prepared = false) ∧
    st.calls = [Call.CreateFile, Call.AllocateBlocks, Call.InitializeCriticalSection,
      Call.waveOutOpen] := by
  unfold PlayFrame.drained at h
  cases hfile : env.file with
  | none => simp [hfile] at h
  | some file =>
    simp only [hfile] at h
    split at h
    · cases h
    · split at h
      · cases h
      · rename_i pos1 _
        split at h
        · rename_i iB lB hiB _
          split at h
          · rename_i st2 hopen
            have hst2 := openPool_returned hopen
            obtain ⟨o1, o2, o3, o4, _, o6, o7, o8, o9⟩ := openedState_fields env
              (iB % 2 ^ 32).toNat 1 (logCall (idleState env.sched) Call.CreateFile)
            obtain ⟨i1, i2, _, i4⟩ := idleState_fields env.sched Call.CreateFile
            have hst2' : st2 = openedState env (iB % 2 ^ 32).toNat 1
                (logCall (idleState env.sched) Call.CreateFile) := hst2
            rw [← hst2'] at o1 o2 o3 o4 o6 o7 o8 o9
            rw [i2] at o2
            rw [i4] at o9
            split at h
            · cases h
            · rename_i hbs
              split at h
              · cases h
              · rename_i st3 hloop
                have hrange : -(2 ^ 31) ≤ iB ∧ iB < 2 ^ 31 := toInt32_range hiB
                have hB : 0 < (Int.tdiv iB 8).toNat → 0 < (iB % 2 ^ 32).toNat := by
                  intro hpos
                  have h8 := tdiv_pos_imp iB hbs hpos
                  omega
                have hfr := PlayFrame.readLoop_frame file _ _ hB _ _ _ _ st2 st3 hloop
                  (by
                    by_cases hz : (Int.tdiv iB 8).toNat = 0
                    · exact Or.inr hz
                    · left
                      rw [o7]
                      exact hB (Nat.pos_of_ne_zero hz))
                  (by rw [o4]; exact Nat.one_pos)
                have hlen3 : st3.waveBlocks.length = 1 := hfr.length_eq.trans o6
                have hcount3 : st3.waveFreeBlockCount + st3.queue.length = ((1 : Nat) : Int) := by
                  rw [hfr.counter, o3, o2]; simp
                obtain ⟨d1, d2, d3, d4, _, d6, _, _⟩ := drain_spec 1 st3 st h hlen3 hcount3
                refine ⟨d1, by simpa using d2, d3, d4, ?_⟩
                rw [d6, hfr.calls, o9]; rfl
          · rename_i hne
            cases hop : openPool env (iB % 2 ^ 32).toNat 1
                (logCall (idleState env.sched) Call.CreateFile) with
            | returned s => exact absurd hop (hne s)
            | exited s => rw [hop] at h; cases h
            | stuck => rw [hop] at h; cases h
        · cases h

theorem openPool_ok_of_returned {env : Env} {S C : Nat} {st st2 : State}
    (h : openPool env S C st = Outcome.returned st2) :
    env.heapOk = true ∧ env.waveOutOk = true := by
  unfold openPool at h
  split at h
  · cases h
  · rename_i h1
    split at h
    · cases h
    · rename_i h2
      exact ⟨by simpa using h1, by simpa using h2⟩

theorem openPool_exited {env : Env} {S C : Nat} {st s : State}
    (h : openPool env S C st = Outcome.exited s) :
    s.calls = st.calls ++ [Call.AllocateBlocks, Call.ExitProcess] ∨
    s.calls = st.calls ++ [Call.AllocateBlocks, Call.InitializeCriticalSection,
      Call.waveOutOpen, Call.ExitProcess] := by
  unfold openPool at h
  split at h
  · cases h
    left
    simp [logCall]
  · split at h
    · cases h
      right
      simp [logCall, resetPool]
    · cases h

theorem drain_not_exited (C : Nat) (st s : State) : drain C st ≠ Outcome.exited s := by
  unfold drain
  split
  · intro h; cases h
  · split
    · intro h; cases h
    · intro h; cases h

theorem PlayWavFile_drained_exited {env : Env} {s : State}
    (h : PlayWavFile.drained env = Outcome.exited s) :
    Call.FreeBlocks ∉ s.calls ∧ Call.waveOutClose ∉ s.calls := by
  unfold PlayWavFile.drained at h
  cases hfile : env.file with
  | none =>
    simp only [hfile, Outcome.exited.injEq] at h
    subst h
    simp [logCall, idleState]
  | some file =>
    simp only [hfile] at h
    cases hop : openPool env BLOCK_SIZE BLOCK_COUNT (logCall (idleState env.sched) Call.CreateFile) with
    | returned st2 =>
      simp only [hop] at h
      split at h
      · cases h
      · exact absurd h (drain_not_exited _ _ _)
    | exited s2 =>
      simp only [hop, Outcome.exited.injEq] at h
      subst h
      obtain ⟨_, _, _, i4⟩ := idleState_fields env.sched Call.CreateFile
      rcases openPool_exited hop with hc | hc <;> rw [hc, i4] <;> simp
    | stuck => simp [hop] at h

theorem PlayFrame_drained_exited {env : Env} {frameTime timeFrom : double} {s : State}
    (h : PlayFrame.drained env frameTime timeFrom = Outcome.exited s) :
    Call.FreeBlocks ∉ s.calls ∧ Call.waveOutClose ∉ s.calls := by
  unfold PlayFrame.drained at h
  cases hfile : env.file with
  | none =>
    simp only [hfile, Outcome.exited.injEq] at h
    subst h
    simp [logCall, idleState]
  | some file =>
    simp only [hfile] at h
    split at h
    · simp only [Outcome.exited.injEq] at h
      subst h
      simp [logCall, idleState]
    · split at h
      · cases h
      · split at h
        · rename_i iB lB _ _
          cases hop : openPool env (iB % 2 ^ 32).toNat 1
              (logCall (idleState env.sched) Call.CreateFile) with
          | returned st2 =>
            rw [hop] at h
            simp only at h
            split at h
            · cases h
            · split at h
              · cases h
              · exact absurd h (drain_not_exited _ _ _)
          | exited s2 =>
            rw [hop] at h
            simp only [Outcome.exited.injEq] at h
            subst h
            obtain ⟨_, _, _, i4⟩ := idleState_fields env.sched Call.CreateFile
            rcases openPool_exited hop with hc | hc <;> rw [hc, i4] <;> simp
          | stuck =>
            rw [hop] at h
            cases h
        · cases h

theorem PlayWavFile_drained_ok {env : Env} {st : State}
    (h : PlayWavFile.drained env = Outcome.returned st) :
    ∃ file, env.file = some file ∧ env.heapOk = true ∧ env.waveOutOk = true := by
  unfold PlayWavFile.drained at h
  cases hfile : env.file with
  | none => simp [hfile] at h
  | some file =>
    simp only [hfile] at h
    cases hop : openPool env BLOCK_SIZE BLOCK_COUNT (logCall (idleState env.sched) Call.CreateFile) with
    | returned st2 =>
      obtain ⟨a, b⟩ := openPool_ok_of_returned hop
      exact ⟨file, rfl, a, b⟩
    | exited s2 => simp [hop] at h
    | stuck => simp [hop] at h

theorem PlayFrame_returned {env : Env} {frameTime timeFrom : double} {st : State}
    (h : PlayFrame env frameTime timeFrom = Outcome.returned st) :
    ∃ st0, PlayFrame.drained env frameTime timeFrom = Outcome.returned st0 ∧
      st = teardown st0 := by
  unfold PlayFrame at h
  cases hd : PlayFrame.drained env frameTime timeFrom with
  | returned st0 =>
    simp only [hd, Outcome.returned.injEq] at h
    exact ⟨st0, rfl, h.symm⟩
  | exited st0 => simp [hd] at h
  | stuck => simp [hd] at h

/-- C7: in `PlayWavFile` and in `PlayFrame`, the state in which the four
closing calls start has no pending block, `waveFreeBlockCount` equal to the
block count, and no block flagged prepared (the unprepare loop has visited
all of them); a call that returns has made the closing calls in the order
`DeleteCriticalSection`, `FreeBlocks`, `waveOutClose`, `CloseHandle` from that
state; a call that ends in `ExitProcess` has called neither `FreeBlocks` nor
`waveOutClose`. -/
theorem pool_released_after_drain :
    (∀ env st, PlayWavFile.drained env = Outcome.returned st →
      st.queue = [] ∧ st.waveFreeBlockCount = (BLOCK_COUNT : Int) ∧
      st.waveBlocks.length = BLOCK_COUNT ∧ ∀ b ∈ st.waveBlocks, b.prepared = false) ∧
    (∀ env frameTime timeFrom st,
      PlayFrame.drained env frameTime timeFrom = Outcome.returned st →
      st.queue = [] ∧ st.waveFreeBlockCount = 1 ∧
      st.waveBlocks.length = 1 ∧ ∀ b ∈ st.waveBlocks, b.prepared = false) ∧
    (∀ env st, PlayWavFile env = Outcome.returned st →
      ∃ st0, PlayWavFile.drained env = Outcome.returned st0 ∧ st = teardown st0 ∧
        st.calls = [Call.CreateFile, Call.AllocateBlocks, Call.InitializeCriticalSection,
          Call.waveOutOpen, Call.DeleteCriticalSection, Call.FreeBlocks, Call.waveOutClose,
          Call.CloseHandle]) ∧
    (∀ env frameTime timeFrom st, PlayFrame env frameTime timeFrom = Outcome.returned st →
      ∃ st0, PlayFrame.drained env frameTime timeFrom = Outcome.returned st0 ∧
        st = teardown st0 ∧
        st.calls = [Call.CreateFile, Call.AllocateBlocks, Call.InitializeCriticalSection,
          Call.waveOutOpen, Call.DeleteCriticalSection, Call.FreeBlocks, Call.waveOutClose,
          Call.CloseHandle]) ∧
    (∀ env st, PlayWavFile env = Outcome.exited st →
      Call.FreeBlocks ∉ st.calls ∧ Call.waveOutClose ∉ st.calls) ∧
    (∀ env frameTime timeFrom st, PlayFrame env frameTime timeFrom = Outcome.exited st →
      Call.FreeBlocks ∉ st.calls ∧ Call.waveOutClose ∉ st.calls) := by
  refine ⟨?_, ?_, ?_, ?_, ?_, ?_⟩
  · intro env st h
    obtain ⟨file, hfile, hheap, hwave⟩ := PlayWavFile_drained_ok h
    obtain ⟨_, _, _, _, p5, p6, p7, p8, _⟩ :=
      PlayWavFile_drained_spec env file hfile hheap hwave st h
    exact ⟨p5, p6, p7, p8⟩
  · intro env frameTime timeFrom st h
    obtain ⟨p1, p2, p3, p4, _⟩ := PlayFrame_drained_spec env frameTime timeFrom st h
    exact ⟨p1, p2, p3, p4⟩
  · intro env st h
    obtain ⟨st0, h0, rfl⟩ := PlayWavFile_returned h
    obtain ⟨file, hfile, hheap, hwave⟩ := PlayWavFile_drained_ok h0
    obtain ⟨_, _, _, _, _, _, _, _, p9⟩ :=
      PlayWavFile_drained_spec env file hfile hheap hwave st0 h0
    refine ⟨st0, h0, rfl, ?_⟩
    rw [(teardown_fields st0).2.2.2, p9]
    rfl
  · intro env frameTime timeFrom st h
    obtain ⟨st0, h0, rfl⟩ := PlayFrame_returned h
    obtain ⟨_, _, _, _, p5⟩ := PlayFrame_drained_spec env frameTime timeFrom st0 h0
    refine ⟨st0, h0, rfl, ?_⟩
    rw [(teardown_fields st0).2.2.2, p5]
    rfl
  · intro env st h
    apply PlayWavFile_drained_exited
    unfold PlayWavFile at h
    cases hd : PlayWavFile.drained env with
    | returned st0 => simp [hd] at h
    | exited st0 => simp only [hd, Outcome.exited.injEq] at h; rw [h]
    | stuck => simp [hd] at h
  · intro env frameTime timeFrom st h
    apply PlayFrame_drained_exited
    unfold PlayFrame at h
    cases hd : PlayFrame.drained env frameTime timeFrom with
    | returned st0 => simp [hd] at h
    | exited st0 => simp only [hd, Outcome.exited.injEq] at h; rw [h]
    | stuck => simp [hd] at h

/-- C4 fails on the code.  With byte rate 17, a frame of one second and 40
bytes of PCM data the block size is 17 and the chunk size `17 / 8 = 2`; the
running total 2, 4, 6, ... never equals 17, so the loop reads to the end of
the file and two blocks of 17 bytes are submitted instead of one.  With byte
rate 7 the chunk size is 0, nothing is read and no block is submitted. -/
theorem PlayFrame_misses_frame_end :
    (PlayFrame (envOf (wavFile 1 17 (countUp 40)) [1, 1]) { m := 1, e := 0 }
      { m := 0, e := 0 }).blocks = some [countUp 17, (countUp 34).drop 17] ∧
    (PlayFrame (envOf (wavFile 1 7 (countUp 40)) [1, 1]) { m := 1, e := 0 }
      { m := 0, e := 0 }).blocks = some [] := by
  constructor <;> decide

/-! ## Theorems: the single-frame driver when the chunk size divides the block size -/

theorem frameChunks_spec (file : List Nat) (bs : Nat) : ∀ (k pos : Nat),
    pos + k * bs ≤ file.length →
    (frameChunks file bs k pos).flatten = (file.drop pos).take (k * bs) ∧
    totalLength (frameChunks file bs k pos) = k * bs
  | 0, pos, _ => by simp [frameChunks, totalLength]
  | k + 1, pos, h => by
    have hk : pos + bs + k * bs ≤ file.length := by
      have : (k + 1) * bs = k * bs + bs := by ring
      omega
    obtain ⟨ih1, ih2⟩ := frameChunks_spec file bs k (pos + bs) hk
    have hlen : (ReadFile file pos bs).length = bs := by
      simp only [ReadFile, List.length_take, List.length_drop]
      have : (k + 1) * bs = k * bs + bs := by ring
      omega
    constructor
    · simp only [frameChunks, List.flatten_cons, ih1]
      have : (k + 1) * bs = bs + k * bs := by ring
      rw [this, List.take_add, List.drop_drop]
      rfl
    · have : totalLength (frameChunks file bs (k + 1) pos) =
          (ReadFile file pos bs).length + totalLength (frameChunks file bs k (pos + bs)) := by
        simp [totalLength, frameChunks]
      rw [this, ih2, hlen]
      ring

/-- When the total reaches the block size after exactly `j + 1` full reads,
the playback loop of `PlayFrame` hands `WriteAudio` those reads and stops. -/
theorem PlayFrame.readLoop_exact (file : List Nat) (bs B : Nat) (hbs : 0 < bs)
    (hB32 : B < 2 ^ 32) :
    ∀ (j fuel pos : Nat) (buffer : List Nat) (total : Nat) (st : State),
      buffer.length = bs → total + (j + 1) * bs = B → pos + (j + 1) * bs ≤ file.length →
      j < fuel →
      PlayFrame.readLoop file bs B fuel pos buffer total st =
        WriteAudioSeq B 1 st (frameChunks file bs (j + 1) pos)
  | _, 0, _, _, _, _, _, _, _, hfuel => absurd hfuel (Nat.not_lt_zero _)
  | j, fuel + 1, pos, buffer, total, st, hbuf, htot, hpos, hfuel => by
    have hexp : (j + 1) * bs = j * bs + bs := by ring
    have hlen : (ReadFile file pos bs).length = bs := by
      simp only [ReadFile, List.length_take, List.length_drop]
      omega
    have hstore : store buffer (ReadFile file pos bs) = ReadFile file pos bs := by
      simp only [store, hlen]
      rw [List.drop_of_length_le (by omega), List.append_nil]
    simp only [PlayFrame.readLoop, hlen, hstore, frameChunks, WriteAudioSeq]
    have hne : ¬ bs = 0 := by omega
    simp only [hne, ↓reduceIte, Nat.lt_irrefl]
    cases hw : WriteAudio st (ReadFile file pos bs) bs B 1 with
    | none => rfl
    | some st1 =>
      simp only []
      have hmod : (total + bs) % 2 ^ 32 = total + bs := Nat.mod_eq_of_lt (by omega)
      rw [hmod]
      cases j with
      | zero =>
        have : total + bs = B := by omega
        simp [this, frameChunks, WriteAudioSeq]
      | succ j =>
        have hexp2 : (j + 1) * bs = j * bs + bs := by ring
        have hlt : ¬ total + bs = B := by
          have : 0 < (j + 1) * bs := Nat.mul_pos (Nat.succ_pos j) hbs
          omega
        simp only [hlt, ↓reduceIte]
        exact PlayFrame.readLoop_exact file bs B hbs hB32 j fuel (pos + bs)
          (ReadFile file pos bs) (total + bs) st1 hlen (by omega) (by omega) (by omega)

theorem drain_returns (C : Nat) (st : State) (hfree : st.waveFreeBlockCount = (C : Int))
    (hsched : st.sched = []) (hlen : st.waveBlocks.length = C) :
    ∃ st', drain C st = Outcome.returned st' := by
  have hdl : drainLoop C st.sched st = some { st with sched := [] } := by
    rw [hsched]
    simp [drainLoop, hfree]
  obtain ⟨st5, h5⟩ := unprepareLoop_returns C 0 { st with sched := [] } (by simp [hlen])
  refine ⟨st5, ?_⟩
  simp only [drain, hdl]
  have hn : ({ st with sched := [] } : State).waveFreeBlockCount.toNat = C := by
    show st.waveFreeBlockCount.toNat = C
    rw [hfree]; rfl
  rw [hn, h5]

theorem pendingBytes_of_fill_zero (st : State) (h : fillOffset st = 0) :
    pendingBytes st = [] := by
  unfold fillOffset at h
  unfold pendingBytes
  cases hb : st.waveBlocks[st.waveCurrentBlock]? with
  | none => rfl
  | some b =>
    simp only [hb] at h
    simp [h]

/-- When the block size `n ≥ 8` is a multiple of the chunk size `n / 8`, the
file holds `n` bytes from the seek target on and the device finishes the block
at the first poll, `PlayFrame` submits exactly one block: the `n` bytes that
follow the seek target. -/
theorem PlayFrame_plays_one_frame (env : Env) (file : List Nat) (frameTime timeFrom : double)
    (pos1 n : Nat) (lB : Int)
    (hfile : env.file = some file) (hheap : env.heapOk = true) (hwave : env.waveOutOk = true)
    (hfmt : wAudioFormatCode (readHeader env file) = 1)
    (hfind : PlayFrame.findData file env.scanFuel (ReadFile file 0 36).length (uninit env 8) =
      some pos1)
    (hB : toInt32 (mulDouble (ulByteRate (readHeader env file)) frameTime) = some (n : Int))
    (hlB : toInt32 (mulDouble (ulByteRate (readHeader env file)) timeFrom) = some lB)
    (h8 : 8 ≤ n) (hdiv : n % (n / 8) = 0)
    (hdata : SetFilePointer pos1 lB + n ≤ file.length)
    (hfit : (n + env.H) * 1 < 2 ^ 32) (hsched : env.sched = [1]) :
    (PlayFrame env frameTime timeFrom).blocks =
      some [(file.drop (SetFilePointer pos1 lB)).take n] := by
  have hrange := toInt32_range hB
  have hn31 : n < 2 ^ 31 := by omega
  have hsize : ((n : Int) % 2 ^ 32).toNat = n := by omega
  have hbs : (Int.tdiv (n : Int) 8) = ((n / 8 : Nat) : Int) := (Int.ofNat_tdiv n 8).symm
  have hbspos : 0 < n / 8 := by omega
  have hnotneg : ¬ ((n / 8 : Nat) : Int) < 0 := by omega
  obtain ⟨st2, hst2⟩ : ∃ st2, st2 = openedState env n 1
      (logCall (idleState env.sched) Call.CreateFile) := ⟨_, rfl⟩
  obtain ⟨o1, o2, o3, o4, o5, o6, o7, o8, _⟩ := openedState_fields env n 1
    (logCall (idleState env.sched) Call.CreateFile)
  obtain ⟨i1, i2, i3, _⟩ := idleState_fields env.sched Call.CreateFile
  rw [← hst2] at o1 o2 o3 o4 o5 o6 o7 o8
  rw [i1] at o1
  rw [i2] at o2
  rw [i3, hsched] at o5
  have hok : PoolOK n 1 st2 := by
    rw [hst2]; exact openedState_ok env n 1 _ hfit
  have hnpos : 0 < n := by omega
  -- the reads
  have hk : n / 8 * (n / (n / 8)) = n := Nat.mul_div_cancel' (Nat.dvd_of_mod_eq_zero hdiv)
  have hkpos : 0 < n / (n / 8) := by
    rcases Nat.eq_zero_or_pos (n / (n / 8)) with hz | hz
    · rw [hz] at hk; omega
    · exact hz
  obtain ⟨j, hj⟩ : ∃ j, n / (n / 8) = j + 1 := ⟨n / (n / 8) - 1, by omega⟩
  have hjn : (j + 1) * (n / 8) = n := by rw [← hj, Nat.mul_comm]; exact hk
  have hjle : j + 1 ≤ n := by
    calc j + 1 = (j + 1) * 1 := (Nat.mul_one _).symm
      _ ≤ (j + 1) * (n / 8) := Nat.mul_le_mul_left _ hbspos
      _ = n := hjn
  have hloop := PlayFrame.readLoop_exact file (n / 8) n hbspos (by omega) j (file.length + 1)
    (SetFilePointer pos1 lB) (uninit env (n / 8)) 0 st2 (uninit_length env _)
    (by rw [Nat.zero_add]; exact hjn) (by rw [hjn]; exact hdata) (by omega)
  obtain ⟨c1, c2⟩ := frameChunks_spec file (n / 8) (j + 1) (SetFilePointer pos1 lB)
    (by rw [hjn]; exact hdata)
  rw [hjn] at c1 c2
  -- the writer
  obtain ⟨st3, h3, q3, f3, s3⟩ := WriteAudioSeq_returns n 1 hnpos
    (frameChunks file (n / 8) (j + 1) (SetFilePointer pos1 lB)) st2 1 hok
    (by rw [o4]; exact Nat.one_pos) (by rw [o7]; exact hnpos) o2
    (by rw [o3]; decide) o5 (by rw [o7, Nat.zero_add, c2, Nat.div_self hnpos])
  obtain ⟨⟨new, r1, r2, _⟩, r4, _, r6, r7⟩ := WriteAudioSeq_spec n 1 hnpos _ st2 st3 h3
    (by rw [o7]; exact hnpos) (by rw [o4]; exact Nat.one_pos)
  rw [o7, Nat.zero_add, c2] at r2 r6 s3
  rw [Nat.div_self hnpos] at r2 s3
  rw [Nat.mod_self] at r6
  rw [o1, List.nil_append] at r1
  have hstream2 : streamed st2 = [] := by simp [streamed, submittedBytes, o1, o8]
  rw [hstream2, List.nil_append, c1] at r4
  have hpend3 := pendingBytes_of_fill_zero st3 r6
  have hdata3 : st3.played.map Submission.data = [(file.drop (SetFilePointer pos1 lB)).take n] := by
    match new, r2 with
    | [s], _ =>
      simp only [streamed, submittedBytes, r1, hpend3, List.map_cons, List.map_nil,
        List.flatten_cons, List.flatten_nil, List.append_nil] at r4
      simp [r1, r4]
  -- the drain
  obtain ⟨st5, h5⟩ := drain_returns 1 st3 (by rw [f3, o3]) (by simpa using s3)
    (r7.length_eq.trans o6)
  obtain ⟨_, _, _, _, d5, _, _, _⟩ := drain_spec 1 st3 st5 h5 (r7.length_eq.trans o6)
    (by rw [r7.counter, o3, o2]; simp)
  have hdrained : PlayFrame.drained env frameTime timeFrom = Outcome.returned st5 := by
    unfold PlayFrame.drained
    simp only [hfile, hfmt, hfind, hB, hlB]
    rw [hsize, openPool_of_ok _ _ _ hheap hwave, hbs]
    simp only [ne_eq, not_true_eq_false, ↓reduceIte, hnotneg, Int.toNat_ofNat]
    have hst2' : logCall (logCall (resetPool env.H n 1 (logCall (idleState env.sched)
        Call.CreateFile)) Call.InitializeCriticalSection) Call.waveOutOpen = st2 := hst2.symm
    rw [hst2', hloop, h3]
    exact h5
  simp only [PlayFrame, hdrained, Outcome.blocks, (teardown_fields st5).1, d5, hdata3]

theorem wavFile_split (formatCode byteRate : Nat) (payload : List Nat) :
    wavFile formatCode byteRate payload =
      (wavFile formatCode byteRate payload).take 44 ++ payload ∧
    ((wavFile formatCode byteRate payload).take 44).length = 44 := by
  simp [wavFile]

theorem wavFile_header (payload : List Nat) :
    readHeader (envOf (wavFile 1 176400 payload) [1]) (wavFile 1 176400 payload) =
      (wavFile 1 176400 []).take 36 := rfl

theorem le32_data_tag (a b c d : Nat) : le32 [100, 97, 116, 97, a, b, c, d] 0 = 1635017060 := by
  show (100 % 256 + 256 * (97 % 256)) + 65536 * (116 % 256 + 256 * (97 % 256)) = 1635017060
  decide

theorem wavFile_findData (payload : List Nat) :
    PlayFrame.findData (wavFile 1 176400 payload) 4 36 (List.replicate 8 0) = some 44 := by
  have h8 : ReadFile (wavFile 1 176400 payload) 36 8 =
      [100, 97, 116, 97, payload.length % 256, payload.length / 256 % 256,
        payload.length / 65536 % 256, payload.length / 16777216 % 256] := rfl
  have hs : ∀ a b c d : Nat, store (List.replicate 8 0) [100, 97, 116, 97, a, b, c, d] =
      [100, 97, 116, 97, a, b, c, d] := fun _ _ _ _ => rfl
  simp only [PlayFrame.findData, h8, hs, le32_data_tag]
  rfl

theorem wavFile_drop (payload : List Nat) (k : Nat) :
    (wavFile 1 176400 payload).drop (44 + k) = payload.drop k := by
  obtain ⟨p, h1, h2⟩ : ∃ p, wavFile 1 176400 payload = p ++ payload ∧ p.length = 44 :=
    ⟨_, (wavFile_split 1 176400 payload).1, (wavFile_split 1 176400 payload).2⟩
  rw [h1, ← h2, List.drop_append]

/-- The scenario of the specification: on a PCM file with byte rate 176400
that holds at least 3 seconds of data, `PlayFrame` with a frame of 1.0 s
starting at 2.0 s submits exactly one block, the 176400 bytes that start at
byte offset 352800 of the PCM data. -/
theorem PlayFrame_scenario (payload : List Nat) (hlen : 529200 ≤ payload.length) :
    (PlayFrame (envOf (wavFile 1 176400 payload) [1]) { m := 1, e := 0 }
      { m := 2, e := 0 }).blocks = some [(payload.drop 352800).take 176400] := by
  have hfmt : wAudioFormatCode (readHeader (envOf (wavFile 1 176400 payload) [1])
      (wavFile 1 176400 payload)) = 1 := by
    rw [wavFile_header]; decide
  have hrate : ulByteRate (readHeader (envOf (wavFile 1 176400 payload) [1])
      (wavFile 1 176400 payload)) = 176400 := by
    rw [wavFile_header]; decide
  have hfile_len : (wavFile 1 176400 payload).length = 44 + payload.length := by
    obtain ⟨h1, h2⟩ := wavFile_split 1 176400 payload
    rw [h1, List.length_append, h2]
  have hseek : SetFilePointer 44 352800 = 44 + 352800 := by decide
  have hB : toInt32 (mulDouble 176400 { m := 1, e := 0 }) = some ((176400 : Nat) : Int) := by
    decide
  have hlB : toInt32 (mulDouble 176400 { m := 2, e := 0 }) = some 352800 := by decide
  have hfit : (176400 + 32) * 1 < 2 ^ 32 := by decide
  have hdiv : 176400 % (176400 / 8) = 0 := by decide
  have key := PlayFrame_plays_one_frame (envOf (wavFile 1 176400 payload) [1])
    (wavFile 1 176400 payload) { m := 1, e := 0 } { m := 2, e := 0 } 44 176400 352800
    rfl rfl rfl hfmt (wavFile_findData payload) (by rw [hrate]; exact hB)
    (by rw [hrate]; exact hlB) (by decide) hdiv (by rw [hseek, hfile_len]; omega) hfit rfl
  rw [key, hseek, wavFile_drop]

/-! ## Theorems: the interleaved system -/

theorem Inv_initial (H S C : Nat) (hC : 1 ≤ C) : Inv C (initial H S C) := by
  obtain ⟨p1, p2, p3, p4, _, _, _⟩ := freshPool_fields H S C []
  refine ⟨?_, ?_, ?_⟩
  · show (freshPool H S C []).queue.length ≤ _
    rw [p2]; exact Nat.zero_le _
  · show (freshPool H S C []).queue = _
    rw [p2]; rfl
  · show (freshPool H S C []).waveFreeBlockCount + ((freshPool H S C []).queue.length : Int) =
        (C : Int) ∧ 1 ≤ (freshPool H S C []).waveFreeBlockCount ∧
        (freshPool H S C []).waveCurrentBlock = (freshPool H S C []).played.length % C
    rw [p1, p2, p3, p4]
    refine ⟨by simp, by exact_mod_cast hC, ?_⟩
    simp

theorem range_mod_concat (C n m : Nat) (hm : m ≤ n) :
    (List.range' (n - m) m).map (fun k => k % C) ++ [n % C] =
      (List.range' (n + 1 - (m + 1)) (m + 1)).map (fun k => k % C) := by
  have h1 : n + 1 - (m + 1) = n - m := by omega
  rw [h1, List.range'_concat, List.map_append]
  simp only [List.map_cons, List.map_nil, Nat.one_mul]
  have h2 : n - m + m = n := by omega
  rw [h2]

theorem range_mod_tail (C n m : Nat) (q : Nat) (rest : List Nat) (hm : m ≤ n)
    (hlen : (q :: rest).length = m)
    (h : q :: rest = (List.range' (n - m) m).map (fun k => k % C)) :
    rest = (List.range' (n - rest.length) rest.length).map (fun k => k % C) := by
  simp only [List.length_cons] at hlen
  subst hlen
  have h1 : n - (rest.length + 1) + 1 = n - rest.length := by omega
  rw [List.range'_succ, List.map_cons, h1] at h
  exact (List.cons.inj h).2

theorem deviceDone_cons (st : State) (q : Nat) (rest : List Nat) (hq : st.queue = q :: rest) :
    (deviceDone st).queue = rest ∧ (deviceDone st).played = st.played ∧
    (deviceDone st).waveFreeBlockCount = st.waveFreeBlockCount + 1 ∧
    (deviceDone st).waveCurrentBlock = st.waveCurrentBlock ∧
    (deviceDone st).waveBlocks = st.waveBlocks := by
  simp [deviceDone, hq, WaveOutProc, WOM_DONE]

theorem Inv_done (C : Nat) (cfg : Config) (q : Nat) (rest : List Nat)
    (hq : cfg.st.queue = q :: rest) (h : Inv C cfg) :
    Inv C { st := deviceDone cfg.st, pc := cfg.pc } := by
  obtain ⟨d1, d2, d3, d4, _⟩ := deviceDone_cons cfg.st q rest hq
  obtain ⟨h1, h2, h3⟩ := h
  have hlen : cfg.st.queue.length = rest.length + 1 := by rw [hq]; rfl
  refine ⟨?_, ?_, ?_⟩
  · show (deviceDone cfg.st).queue.length ≤ (deviceDone cfg.st).played.length
    rw [d1, d2]; omega
  · show (deviceDone cfg.st).queue = _
    simp only [d1, d2]
    rw [hq] at h2
    exact range_mod_tail C _ _ q rest h1 (by rw [← hq]) (by rw [← hq] at h2 ⊢; exact h2)
  · cases hpc : cfg.pc with
    | idle =>
      simp only [hpc] at h3 ⊢
      rw [d1, d2, d3, d4]
      refine ⟨?_, by omega, h3.2.2⟩
      have := h3.1; rw [hlen] at this; push_cast at this ⊢; omega
    | loopHead data size =>
      simp only [hpc] at h3 ⊢
      rw [d1, d2, d3, d4]
      refine ⟨?_, by omega, h3.2.2⟩
      have := h3.1; rw [hlen] at this; push_cast at this ⊢; omega
    | written data size =>
      simp only [hpc] at h3 ⊢
      rw [d1, d2, d3, d4]
      refine ⟨?_, by omega, h3.2.2⟩
      have := h3.1; rw [hlen] at this; push_cast at this ⊢; omega
    | waiting data size =>
      simp only [hpc] at h3 ⊢
      rw [d1, d2, d3, d4]
      refine ⟨?_, by omega, h3.2.2⟩
      have := h3.1; rw [hlen] at this; push_cast at this ⊢; omega

theorem Inv_writer (S C : Nat) (cfg cfg' : Config) (h : Inv C cfg)
    (hs : writerStep S C cfg = some cfg') : Inv C cfg' := by
  obtain ⟨h1, h2, h3⟩ := h
  unfold writerStep at hs
  cases hpc : cfg.pc with
  | idle => simp [hpc] at hs
  | loopHead data size =>
    simp only [hpc] at hs h3
    by_cases hsize : size = 0
    · simp only [hsize, ↓reduceIte, Option.some.injEq] at hs
      subst hs
      exact ⟨h1, h2, h3⟩
    · simp only [hsize, ↓reduceIte] at hs
      cases hc : cfg.st.waveBlocks[cfg.st.waveCurrentBlock]? with
      | none => simp [hc] at hs
      | some c =>
        simp only [hc] at hs
        obtain ⟨g, hg, hun⟩ := unprepare_eq cfg.st c.prepared
        rw [hun] at hs
        by_cases hlt : size < S - c.dwUser
        · simp only [hlt, ↓reduceIte] at hs
          split at hs
          · cases hs
          · rename_i st2 htop
            cases hs
            obtain ⟨p1, p2, _, _, _, p6, _, p8⟩ := topUp_pass cfg.st g hg c hc data size st2 htop
            refine ⟨?_, ?_, ?_⟩
            · show st2.queue.length ≤ st2.played.length
              rw [p1, p6]; exact h1
            · show st2.queue = _
              rw [p1, p6]; exact h2
            · show st2.waveFreeBlockCount + (st2.queue.length : Int) = (C : Int) ∧
                1 ≤ st2.waveFreeBlockCount ∧ st2.waveCurrentBlock = st2.played.length % C
              rw [p1, p2, p6, p8]; exact h3
        · simp only [hlt, ↓reduceIte] at hs
          split at hs
          · cases hs
          · split at hs
            · cases hs
            · rename_i st2 hw
              cases hs
              obtain ⟨b, _, _, _, e2⟩ := writeCurrent_eq_some hw
              have q1 : st2.queue = cfg.st.queue ++ [cfg.st.waveCurrentBlock] := by rw [e2]
              have q2 : st2.played.length = cfg.st.played.length + 1 := by
                rw [e2]; simp
              have q3 : st2.waveFreeBlockCount = cfg.st.waveFreeBlockCount := by rw [e2]
              have q4 : st2.waveCurrentBlock = cfg.st.waveCurrentBlock := by rw [e2]
              have q5 : st2.queue.length = cfg.st.queue.length + 1 := by rw [q1]; simp
              refine ⟨?_, ?_, ?_⟩
              · show st2.queue.length ≤ st2.played.length
                rw [q5, q2]; omega
              · show st2.queue = _
                rw [q5, q2, q1, h3.2.2]
                conv_lhs => rw [h2]
                exact range_mod_concat C _ _ h1
              · show st2.waveFreeBlockCount + (st2.queue.length : Int) = (C : Int) + 1 ∧
                  1 ≤ st2.waveFreeBlockCount ∧ 1 ≤ st2.played.length ∧
                  st2.waveCurrentBlock = (st2.played.length - 1) % C
                rw [q2, q3, q4, q5]
                refine ⟨?_, h3.2.1, by omega, ?_⟩
                · have := h3.1; push_cast; omega
                · rw [h3.2.2]; simp
  | written data size =>
    simp only [hpc, Option.some.injEq] at hs h3
    subst hs
    refine ⟨h1, h2, ?_⟩
    show cfg.st.waveFreeBlockCount - 1 + (cfg.st.queue.length : Int) = (C : Int) ∧
      0 ≤ cfg.st.waveFreeBlockCount - 1 ∧ 1 ≤ cfg.st.played.length ∧
      cfg.st.waveCurrentBlock = (cfg.st.played.length - 1) % C
    exact ⟨by omega, by omega, h3.2.2.1, h3.2.2.2⟩
  | waiting data size =>
    simp only [hpc] at hs h3
    by_cases hz : cfg.st.waveFreeBlockCount = 0
    · simp only [hz, ↓reduceIte, Option.some.injEq] at hs
      subst hs
      refine ⟨h1, h2, ?_⟩
      rw [hpc]
      exact h3
    · simp only [hz, ↓reduceIte] at hs
      split at hs
      · cases hs
      · rename_i st2 hn
        cases hs
        obtain ⟨n1, _, e2⟩ := nextBlock_eq_some hn
        have q1 : st2.queue = cfg.st.queue := by rw [e2]
        have q2 : st2.played = cfg.st.played := by rw [e2]
        have q3 : st2.waveFreeBlockCount = cfg.st.waveFreeBlockCount := by rw [e2]
        have q4 : st2.waveCurrentBlock = (cfg.st.waveCurrentBlock + 1) % C := by rw [e2]
        refine ⟨?_, ?_, ?_⟩
        · show st2.queue.length ≤ st2.played.length
          rw [q1, q2]; exact h1
        · show st2.queue = _
          rw [q1, q2]; exact h2
        · show st2.waveFreeBlockCount + (st2.queue.length : Int) = (C : Int) ∧
            1 ≤ st2.waveFreeBlockCount ∧ st2.waveCurrentBlock = st2.played.length % C
          rw [q1, q2, q3, q4]
          refine ⟨h3.1, by omega, ?_⟩
          rw [h3.2.2.2, Nat.mod_add_mod]
          congr 1
          omega

theorem Inv_step (S C : Nat) (cfg cfg' : Config) (a : Action) (h : Inv C cfg)
    (hs : step S C cfg a = some cfg') : Inv C cfg' := by
  cases a with
  | call data size =>
    simp only [step] at hs
    cases hpc : cfg.pc with
    | idle =>
      simp only [hpc, Option.some.injEq] at hs
      subst hs
      obtain ⟨h1, h2, h3⟩ := h
      rw [hpc] at h3
      exact ⟨h1, h2, h3⟩
    | loopHead d s => simp [hpc] at hs
    | written d s => simp [hpc] at hs
    | waiting d s => simp [hpc] at hs
  | writer => exact Inv_writer S C cfg cfg' h hs
  | done =>
    simp only [step] at hs
    cases hq : cfg.st.queue with
    | nil => simp [hq] at hs
    | cons q rest =>
      simp only [hq, Option.some.injEq] at hs
      subst hs
      exact Inv_done C cfg q rest hq h

theorem Inv_run (S C : Nat) : ∀ (actions : List Action) (cfg cfg' : Config),
    Inv C cfg → run S C cfg actions = some cfg' → Inv C cfg'
  | [], cfg, cfg', h, hr => by
    simp only [run, Option.some.injEq] at hr
    subst hr
    exact h
  | a :: rest, cfg, cfg', h, hr => by
    simp only [run] at hr
    cases hs : step S C cfg a with
    | none => simp [hs] at hr
    | some cfg1 =>
      simp only [hs] at hr
      exact Inv_run S C rest cfg1 cfg' (Inv_step S C cfg cfg1 a h hs) hr

theorem mod_ne_of_close (C k n : Nat) (h1 : k < n) (h2 : n - k < C) : k % C ≠ n % C := by
  intro h
  have h3 : (n - k) % C = 0 := Nat.sub_mod_eq_zero_of_mod_eq h.symm
  have h4 : C ∣ n - k := Nat.dvd_of_mod_eq_zero h3
  have h5 : C ≤ n - k := Nat.le_of_dvd (by omega) h4
  omega

theorem next_not_pending (C n m : Nat) (hm : m ≤ n) (hmC : m < C) :
    n % C ∉ (List.range' (n - m) m).map (fun k => k % C) := by
  intro hmem
  obtain ⟨k, hk, hkn⟩ := List.mem_map.1 hmem
  rw [List.mem_range'_1] at hk
  exact mod_ne_of_close C k n (by omega) (by omega) hkn

/-- C6 as stated fails: with the pool of `PlayFrame` (one block, here of eight
bytes, fed by one-byte chunks), when the device finishes the block between
`waveOutWrite` and the decrement, `waveFreeBlockCount` is 2 while the block
count is 1. -/
theorem signal_exceeds_count :
    ∃ cfg, run 8 1 (initial 32 8 1) (eightCalls ++ [Action.done]) = some cfg ∧
      cfg.st.played.map Submission.data = [[1, 2, 3, 4, 5, 6, 7, 8]] ∧
      cfg.st.waveFreeBlockCount = 2 ∧ ¬ (cfg.st.waveFreeBlockCount ≤ ((1 : Nat) : Int)) := by
  refine ⟨_, rfl, ?_, ?_, ?_⟩ <;> decide

/-- C6, amended: in every state reached from a freshly reset pool of `C ≥ 1`
blocks by calls of `WriteAudio`, steps of the writer and completions of the
device, `waveFreeBlockCount` is in `[0, C + 1]`, and in `[0, C]` except
between `waveOutWrite` and the decrement; together with the pending blocks
it adds up to `C` (to `C + 1` between `waveOutWrite` and the decrement); and
it is positive whenever the writer is at the head of its loop, so a block is
submitted only when it is positive. -/
theorem signal_bounds (H S C : Nat) (hC : 1 ≤ C) (actions : List Action) (cfg : Config)
    (hr : run S C (initial H S C) actions = some cfg) :
    0 ≤ cfg.st.waveFreeBlockCount ∧
    cfg.st.waveFreeBlockCount ≤ (C : Int) + 1 ∧
    (cfg.pc.isWritten = false → cfg.st.waveFreeBlockCount ≤ (C : Int)) ∧
    (cfg.pc.atHead = true → 0 < cfg.st.waveFreeBlockCount) ∧
    cfg.st.waveFreeBlockCount + cfg.st.queue.length =
      (C : Int) + (if cfg.pc.isWritten then 1 else 0) := by
  obtain ⟨_, _, h3⟩ := Inv_run S C actions _ cfg (Inv_initial H S C hC) hr
  cases hpc : cfg.pc with
  | idle =>
    simp only [hpc] at h3
    simp only [PC.isWritten, PC.atHead]
    refine ⟨by omega, by omega, fun _ => by omega, fun _ => by omega, ?_⟩
    simp [h3.1]
  | loopHead d s =>
    simp only [hpc] at h3
    simp only [PC.isWritten, PC.atHead]
    refine ⟨by omega, by omega, fun _ => by omega, fun _ => by omega, ?_⟩
    simp [h3.1]
  | written d s =>
    simp only [hpc] at h3
    simp only [PC.isWritten, PC.atHead]
    refine ⟨by omega, by omega, fun h => absurd h (by simp [PC.isWritten, PC.atHead, PC.isWaiting]), fun h => absurd h (by simp [PC.isWritten, PC.atHead, PC.isWaiting]), ?_⟩
    simp [h3.1]
  | waiting d s =>
    simp only [hpc] at h3
    simp only [PC.isWritten, PC.atHead]
    refine ⟨by omega, by omega, fun _ => by omega, fun h => absurd h (by simp [PC.isWritten, PC.atHead, PC.isWaiting]), ?_⟩
    simp [h3.1]

/-- C6, amended, at a concrete run: the block of `PlayFrame` is written, the
device finishes it at once, and the writer then decrements the count. -/
theorem signal_bounds_witness :
    ∃ cfg, run 8 1 (initial 32 8 1) (eightCalls ++ [Action.done, Action.writer]) = some cfg ∧
      0 ≤ cfg.st.waveFreeBlockCount ∧ cfg.st.waveFreeBlockCount ≤ ((1 : Nat) : Int) + 1 ∧
      (cfg.pc.isWritten = false → cfg.st.waveFreeBlockCount ≤ ((1 : Nat) : Int)) := by
  obtain ⟨cfg, h⟩ := Option.isSome_iff_exists.1
    (by decide : (run 8 1 (initial 32 8 1)
      (eightCalls ++ [Action.done, Action.writer])).isSome = true)
  have key := signal_bounds 32 8 1 (by decide) _ cfg h
  exact ⟨cfg, h, key.1, key.2.1, key.2.2.1⟩

/-- C10: in every state reached from a freshly reset pool of `C ≥ 1` blocks,
the device finishing blocks in the order it received them, the block the
writer is about to copy into, unprepare or submit (the current block, when
the writer is at the head of its loop or outside `WriteAudio`) is not pending;
and when the wait loop reads a non-zero `waveFreeBlockCount`, the block at the
next index `(waveCurrentBlock + 1) % C` is not pending. -/
theorem writer_avoids_pending (H S C : Nat) (hC : 1 ≤ C) (actions : List Action)
    (cfg : Config) (hr : run S C (initial H S C) actions = some cfg) :
    (cfg.pc.atHead = true → cfg.st.waveCurrentBlock ∉ cfg.st.queue) ∧
    (cfg.pc.isWaiting = true → cfg.st.waveFreeBlockCount ≠ 0 →
      (cfg.st.waveCurrentBlock + 1) % C ∉ cfg.st.queue) := by
  obtain ⟨h1, h2, h3⟩ := Inv_run S C actions _ cfg (Inv_initial H S C hC) hr
  cases hpc : cfg.pc with
  | idle =>
    simp only [hpc] at h3
    refine ⟨fun _ => ?_, fun h => absurd h (by simp [PC.isWritten, PC.atHead, PC.isWaiting])⟩
    rw [h3.2.2, h2]
    exact next_not_pending C _ _ h1 (by omega)
  | loopHead d s =>
    simp only [hpc] at h3
    refine ⟨fun _ => ?_, fun h => absurd h (by simp [PC.isWritten, PC.atHead, PC.isWaiting])⟩
    rw [h3.2.2, h2]
    exact next_not_pending C _ _ h1 (by omega)
  | written d s =>
    exact ⟨fun h => absurd h (by simp [PC.isWritten, PC.atHead, PC.isWaiting]), fun h => absurd h (by simp [PC.isWritten, PC.atHead, PC.isWaiting])⟩
  | waiting d s =>
    simp only [hpc] at h3
    refine ⟨fun h => absurd h (by simp [PC.isWritten, PC.atHead, PC.isWaiting]), fun _ hne => ?_⟩
    have hnext : (cfg.st.waveCurrentBlock + 1) % C = cfg.st.played.length % C := by
      rw [h3.2.2.2, Nat.mod_add_mod]
      congr 1
      omega
    rw [hnext, h2]
    exact next_not_pending C _ _ h1 (by omega)

/-- C10 at a concrete run: two blocks of two bytes, the first block written
and not yet finished when the wait loop exits. -/
theorem writer_avoids_pending_witness :
    ∃ cfg, run 2 2 (initial 32 2 2)
        [Action.call [7, 7, 8] 3, Action.writer, Action.writer] = some cfg ∧
      cfg.st.queue = [0] ∧ cfg.st.waveFreeBlockCount ≠ 0 ∧
      (cfg.st.waveCurrentBlock + 1) % 2 ∉ cfg.st.queue := by
  obtain ⟨cfg, h⟩ := Option.isSome_iff_exists.1
    (by decide : (run 2 2 (initial 32 2 2)
      [Action.call [7, 7, 8] 3, Action.writer, Action.writer]).isSome = true)
  have key := writer_avoids_pending 32 2 2 (by decide) _ cfg h
  have hcfg : run 2 2 (initial 32 2 2)
      [Action.call [7, 7, 8] 3, Action.writer, Action.writer] =
      some (Option.get _ (by decide : (run 2 2 (initial 32 2 2)
        [Action.call [7, 7, 8] 3, Action.writer, Action.writer]).isSome = true)) := by
    simp
  rw [hcfg] at h
  cases h
  exact ⟨_, hcfg, by decide, by decide, key.2 (by decide) (by decide)⟩

end AudioDLL
